import Mathlib

/-!
Shallow embedding of the `flo` package (`src/flo.go`): a bidirectional graph
of components (function calls) with typed ports, rendered as a wrapper
function declaration.

Modelling conventions:
* `uuid.UUID` is modelled as `Nat`, with `0` playing the role of `uuid.Nil`.
  Calls to `uuid.New()` inside an operation are modelled by passing the fresh
  id(s) explicitly as extra parameters.
* `reflect.Type` is modelled by `TypeDesc`, an opaque descriptor carrying
  exactly the observations the code makes of it: package path, name, whether
  it implements the error interface, validity, and the printed zero value.
  Go's `AssignableTo` is an external type-system predicate and is passed as a
  function argument where the code consults it.
* Go maps (`Components`, `connectionIndex`) are modelled as association lists
  keyed by id; lookup is first-match, deletion removes every match (a map
  never holds two entries for one key).  Where the code ranges over a map
  (whose iteration order Go leaves unspecified), the iteration order is an
  explicit parameter.
* Pointer mutation of a port found by id is modelled by updating the first
  list entry with that id inside its owning container.
* `lo.CamelCase` and the hex SHA-1 digest are external string functions and
  are passed as parameters where used.
* Go methods mutate the receiver and return an `error`; operations here
  return `Option FloErr × Flo`: the error (or `none`) together with the
  post-call state, so that partial mutation on a failing path is observable.

Names follow the source where the character rules of this development allow;
`IO` in Go names is rendered `Io`.
-/

/-- Direction of a port, Go's `ComponentIOType`. -/
inductive ComponentIoType where
  | unknown
  | IN
  | OUT
deriving DecidableEq

/-- Opaque descriptor of a Go `reflect.Type`, carrying the observations the
code makes of a type: `PkgPath()`, `Name()`, whether it implements `error`,
whether its `Kind()` is valid, and the text `fmt.Sprintf` prints for its zero
value. -/
structure TypeDesc where
  pkgPath : String
  name : String
  implementsError : Bool
  isValid : Bool
  zeroLit : String
deriving DecidableEq

/-- Opaque descriptor of a Go `reflect.Value` wrapping a callable: whether its
kind is `Func`, and its parameter and return types as reported by reflection. -/
structure FuncVal where
  isFunc : Bool
  ins : List TypeDesc
  outs : List TypeDesc
deriving DecidableEq

/-- Go's `ComponentConnection`: a directed edge between an OUT port and an IN
port, each identified by (component id, port id). -/
structure ComponentConnection where
  id : Nat
  outComponentId : Nat
  outComponentIoId : Nat
  inComponentId : Nat
  inComponentIoId : Nat
deriving DecidableEq

/-- Go's `ComponentIO`: a typed, directional port with its connection list. -/
structure ComponentIo where
  id : Nat
  name : String
  typ : ComponentIoType
  rtype : TypeDesc
  isError : Bool
  parentId : Nat
  connections : List ComponentConnection
deriving DecidableEq

/-- Go's `Component`: a named unit wrapping a callable, with derived ports. -/
structure Component where
  id : Nat
  name : String
  pkgPath : String
  label : String
  description : String
  value : FuncVal
  ios : List ComponentIo
deriving DecidableEq

/-- Go's `Flo`: the graph owning boundary ports, components and the
connection index.  `components` models the Go map `Components` as an
association list keyed by `Component.id`; `connectionIndex` likewise. -/
structure Flo where
  id : Nat
  name : String
  label : String
  description : String
  pkgName : String
  pkgDescription : String
  components : List Component
  ios : List ComponentIo
  connectionIndex : List (Nat × ComponentConnection)
deriving DecidableEq

/-- Error kinds, one per distinct failure message in `flo.go`.  Payloads keep
the ids the Go messages interpolate (including the slip at flo.go:369 where
the missing in-component message prints the out component id). -/
inductive FloErr where
  | missingIo
  | duplicateIo (name : String) (typ : ComponentIoType)
  | invalidId
  | ioNotFound (id : Nat)
  | ioHasConnections (id : Nat)
  | missingComponent
  | componentExists (id : Nat)
  | componentHasConnections (id : Nat)
  | invalidOutComponentId
  | invalidOutComponentIoId
  | invalidInComponentId
  | invalidInComponentIoId
  | noOutComponent (id : Nat)
  | noOutComponentIo (ioId cid : Nat)
  | noInComponent (id : Nat)
  | noInComponentIo (ioId cid : Nat)
  | selfConnection (id : Nat)
  | outIoNotTypeOut (ioId : Nat)
  | outFloIoNotTypeIn (ioId : Nat)
  | inIoNotTypeIn (ioId : Nat)
  | inFloIoNotTypeOut (ioId : Nat)
  | alreadyConnected (ioId : Nat)
  | duplicateEdge (inCid outCid outIoId : Nat)
  | notAssignable (outIoId inIoId : Nat)
  | cannotCreateConnection
  | unknownConnection (id : Nat)
  | unknownIoType
  | invalidIoRType
  | invalidParentId
  | notAFunction
  | ghostIngoing (connId cid : Nat)
  | ghostOutgoing (connId cid : Nat)
  | fuelExhausted
deriving DecidableEq

namespace Flo

/-- `IOs.GetByID` (flo.go:755): first port with the given id, none for the
nil id. -/
def getByID (ios : List ComponentIo) (ioId : Nat) : Option ComponentIo :=
  if ioId == 0 then none else ios.find? (fun x => x.id == ioId)

/-- The IN half of `IOs.SeparateINsOUTs` (flo.go:769), order preserved. -/
def insOf (ios : List ComponentIo) : List ComponentIo :=
  ios.filter (fun x => x.typ == ComponentIoType.IN)

/-- The OUT half of `IOs.SeparateINsOUTs`: `lo.FilterReject` returns the
rejected elements, i.e. every port whose direction is not IN. -/
def outsOf (ios : List ComponentIo) : List ComponentIo :=
  ios.filter (fun x => !(x.typ == ComponentIoType.IN))

/-- `IOs.HasConnections` (flo.go:779). -/
def hasConnections (ios : List ComponentIo) : Bool :=
  ios.any (fun x => !x.connections.isEmpty)

/-- Go map lookup `f.Components[cid]`. -/
def lookupComp (f : Flo) (cid : Nat) : Option Component :=
  f.components.find? (fun c => c.id == cid)

/-- Go map lookup `f.connectionIndex[connId]`. -/
def lookupConn (f : Flo) (connId : Nat) : Option ComponentConnection :=
  (f.connectionIndex.find? (fun p => p.1 == connId)).map (fun p => p.2)

/-- `Flo.AddIO` (flo.go:110): reject a boundary port duplicating an existing
(name, direction) pair, otherwise stamp the parent id and append. -/
def addIo (f : Flo) (x : ComponentIo) : Option FloErr × Flo :=
  if (f.ios.find? (fun fio => fio.name == x.name && fio.typ == x.typ)).isSome then
    (some (FloErr.duplicateIo x.name x.typ), f)
  else
    (none, { f with ios := f.ios ++ [{ x with parentId := f.id }] })

/-- `Flo.DeleteIO` (flo.go:136). -/
def deleteIo (f : Flo) (ioId : Nat) : Option FloErr × Flo :=
  if ioId == 0 then (some FloErr.invalidId, f)
  else
    match f.ios.find? (fun x => x.id == ioId) with
    | none => (some (FloErr.ioNotFound ioId), f)
    | some x =>
      if !x.connections.isEmpty then (some (FloErr.ioHasConnections ioId), f)
      else (none, { f with ios := f.ios.filter (fun y => !(y.id == ioId)) })

/-- `Flo.AddComponent` (flo.go:162): never overwrites an existing entry. -/
def addComponent (f : Flo) (c : Component) : Option FloErr × Flo :=
  if (lookupComp f c.id).isSome then (some (FloErr.componentExists c.id), f)
  else (none, { f with components := f.components ++ [c] })

/-- `Flo.DeleteComponent` (flo.go:179): errors only when the id is nil or a
registered component with that id still has a connection; otherwise the map
delete runs (a no-op when the id is unknown) and nil is returned. -/
def deleteComponent (f : Flo) (cid : Nat) : Option FloErr × Flo :=
  if cid == 0 then (some FloErr.invalidId, f)
  else
    match lookupComp f cid with
    | some c =>
      if hasConnections c.ios then (some (FloErr.componentHasConnections c.id), f)
      else (none, { f with components := f.components.filter (fun y => !(y.id == cid)) })
    | none => (none, { f with components := f.components.filter (fun y => !(y.id == cid)) })

/-- Update the first port with the given id in a list, modelling Go's
mutation through the pointer returned by `GetByID`. -/
def updateIoFirst (g : ComponentIo → ComponentIo) (ioId : Nat) :
    List ComponentIo → List ComponentIo
  | [] => []
  | x :: rest => if x.id == ioId then g x :: rest else x :: updateIoFirst g ioId rest

/-- Update the first component with the given id, modelling mutation through
the pointer held in the components map. -/
def updateCompFirst (g : Component → Component) (cid : Nat) :
    List Component → List Component
  | [] => []
  | c :: rest => if c.id == cid then g c :: rest else c :: updateCompFirst g cid rest

/-- Apply a port update on the side resolved by `ConnectComponent`: the flo's
own boundary ports when the side's component id equals the flo's id,
otherwise the ports of the registered component with that id. -/
def applyIoUpdate (f : Flo) (isFlo : Bool) (cid ioId : Nat)
    (g : ComponentIo → ComponentIo) : Flo :=
  if isFlo then { f with ios := updateIoFirst g ioId f.ios }
  else
    let comps := updateCompFirst (fun c => { c with ios := updateIoFirst g ioId c.ios })
      cid f.components
    { f with components := comps }

/-- `NewComponentConnect` (flo.go:727); the connection id is `uuid.New()`,
passed here as `freshId`. -/
def newComponentConnect (outCid outIoId inCid inIoId freshId : Nat) :
    Except FloErr ComponentConnection :=
  if outCid == 0 then Except.error FloErr.invalidOutComponentId
  else if outIoId == 0 then Except.error FloErr.invalidOutComponentIoId
  else if inCid == 0 then Except.error FloErr.invalidInComponentId
  else if inIoId == 0 then Except.error FloErr.invalidInComponentIoId
  else Except.ok ⟨freshId, outCid, outIoId, inCid, inIoId⟩

/-- The duplicate-edge guard of `ConnectComponent` (flo.go:277-293): some
port of the out side's port set, of the direction required for the out role,
already carries a connection terminating at the chosen in port. -/
def dupEdgeExists (fIsOutgoing : Bool) (outIos : List ComponentIo)
    (inIoId : Nat) : Bool :=
  outIos.any (fun x =>
    if (!fIsOutgoing && !(x.typ == ComponentIoType.OUT))
        || (fIsOutgoing && !(x.typ == ComponentIoType.IN)) then false
    else x.connections.any (fun k => k.inComponentIoId == inIoId))

/-- `Flo.ConnectComponent` (flo.go:202), translated check for check in the
source's order: nil ids, out side resolution, in side resolution, self-loop,
out then in direction, in port already connected, duplicate edge,
assignability; on success the new connection is appended to both ports,
indexed, and the in port takes the out port's name. -/
def connectComponent (assignable : TypeDesc → TypeDesc → Bool) (f : Flo)
    (outCid outIoId inCid inIoId freshId : Nat) : Option FloErr × Flo :=
  if outCid == 0 then (some FloErr.invalidOutComponentId, f)
  else if outIoId == 0 then (some FloErr.invalidOutComponentIoId, f)
  else if inCid == 0 then (some FloErr.invalidInComponentId, f)
  else if inIoId == 0 then (some FloErr.invalidInComponentIoId, f)
  else
    let isFloOutgoing := outCid == f.id
    match (if isFloOutgoing then some f.ios else (lookupComp f outCid).map Component.ios) with
    | none => (some (FloErr.noOutComponent outCid), f)
    | some outIos =>
      match getByID outIos outIoId with
      | none => (some (FloErr.noOutComponentIo outIoId outCid), f)
      | some outIo =>
        let isFloIngoing := inCid == f.id
        match (if isFloIngoing then some f.ios else (lookupComp f inCid).map Component.ios) with
        | none => (some (FloErr.noInComponent outCid), f)
        | some inIos =>
          match getByID inIos inIoId with
          | none => (some (FloErr.noInComponentIo inIoId inCid), f)
          | some inIo =>
            if outCid == inCid then (some (FloErr.selfConnection outCid), f)
            else if !isFloOutgoing && !(outIo.typ == ComponentIoType.OUT) then
              (some (FloErr.outIoNotTypeOut outIoId), f)
            else if isFloOutgoing && !(outIo.typ == ComponentIoType.IN) then
              (some (FloErr.outFloIoNotTypeIn outIoId), f)
            else if !isFloIngoing && !(inIo.typ == ComponentIoType.IN) then
              (some (FloErr.inIoNotTypeIn inIoId), f)
            else if isFloIngoing && !(inIo.typ == ComponentIoType.OUT) then
              (some (FloErr.inFloIoNotTypeOut inIoId), f)
            else if !inIo.connections.isEmpty then
              (some (FloErr.alreadyConnected inIoId), f)
            else if dupEdgeExists isFloOutgoing outIos inIo.id then
              (some (FloErr.duplicateEdge inCid outCid outIoId), f)
            else if !(assignable outIo.rtype inIo.rtype) then
              (some (FloErr.notAssignable outIoId inIoId), f)
            else
              match newComponentConnect outCid outIoId inCid inIoId freshId with
              | Except.error _ => (some FloErr.cannotCreateConnection, f)
              | Except.ok conn =>
                let appendConn := fun (x : ComponentIo) =>
                  { x with connections := x.connections ++ [conn] }
                let appendConnRename := fun (x : ComponentIo) =>
                  { x with connections := x.connections ++ [conn], name := outIo.name }
                let f1 := applyIoUpdate f isFloOutgoing outCid outIoId appendConn
                let f2 := applyIoUpdate f1 isFloIngoing inCid inIoId appendConnRename
                (none, { f2 with connectionIndex := f2.connectionIndex ++ [(conn.id, conn)] })

/-- `Flo.DeleteConnection` (flo.go:339).  The `defer delete(f.connectionIndex,
connectionID)` registered right after the index lookup fires on every
subsequent exit path, so once the connection is found the index entry is
gone even when a later lookup fails; both endpoint lookups go through
`f.Components` only. -/
def deleteConnection (f : Flo) (connId : Nat) : Option FloErr × Flo :=
  if connId == 0 then (some FloErr.invalidId, f)
  else
    match lookupConn f connId with
    | none => (some (FloErr.unknownConnection connId), f)
    | some conn =>
      let f := { f with connectionIndex :=
        f.connectionIndex.filter (fun p => !(p.1 == connId)) }
      match lookupComp f conn.outComponentId with
      | none => (some (FloErr.noOutComponent conn.outComponentId), f)
      | some outComponent =>
        match getByID outComponent.ios conn.outComponentIoId with
        | none => (some (FloErr.noOutComponentIo conn.outComponentIoId conn.outComponentId), f)
        | some _ =>
          let dropConn := fun (x : ComponentIo) =>
            { x with connections := x.connections.filter (fun k => !(k.id == connId)) }
          let outComps := updateCompFirst
            (fun c => { c with ios := updateIoFirst dropConn conn.outComponentIoId c.ios })
            conn.outComponentId f.components
          let f := { f with components := outComps }
          match lookupComp f conn.inComponentId with
          | none => (some (FloErr.noInComponent conn.outComponentId), f)
          | some inComponent =>
            match getByID inComponent.ios conn.inComponentIoId with
            | none => (some (FloErr.noInComponentIo conn.inComponentIoId conn.inComponentId), f)
            | some _ =>
              let clearIo := fun (x : ComponentIo) =>
                { x with name := "", connections := [] }
              let inComps := updateCompFirst
                (fun c => { c with ios := updateIoFirst clearIo conn.inComponentIoId c.ios })
                conn.inComponentId f.components
              let f := { f with components := inComps }
              (none, f)

end Flo

namespace Flo

/-- One call statement emitted by `RenderComponent` (flo.go:549-595): the
description comment, the assignment targets, the qualified callee, the
argument names, whether `:=` is present, and the error guard (present and
with its early-return tokens exactly when the component loop set
`hasErrorReturn`). -/
structure Stmt where
  cid : Nat
  description : String
  lhs : List String
  calleePkg : String
  calleeName : String
  args : List String
  hasAssign : Bool
  guard : Bool
  guardRet : List String
deriving DecidableEq

/-- Tokens of the emitted function's return clause (flo.go:411-424): a bare
qualified type, or a parenthesized list of qualified types. -/
inductive RetTok where
  | qual (pkgPath typeName : String)
  | parens (ts : List (String × String))
deriving DecidableEq

/-- The abstract content `Render` (flo.go:382) hands to the jennifer code
emitter: package header data, the wrapper function's name, parameters and
return clause, the body statements in emission order, and the final return
tokens. -/
structure RenderOut where
  pkgName : String
  pkgDescription : String
  funcName : String
  params : List (String × String × String)
  retClause : List RetTok
  body : List Stmt
  finalRet : List String
deriving DecidableEq

/-- The set of already-rendered component ids is exactly the set of emitted
statements' component ids: `RenderComponent` marks a component rendered at
the same moment it appends the component's statement. -/
def renderedIn (st : List Stmt) (cid : Nat) : Bool :=
  st.any (fun s => s.cid == cid)

/-- Component ids of a statement list, in emission order. -/
def stmtIds (st : List Stmt) : List Nat :=
  st.map (fun s => s.cid)

/-- The `hasErrorReturn` flag computed by the left-hand-side loop of
`RenderComponent` (flo.go:554-567): set when an OUT port with no outgoing
connection is error-like (ports with connections take the first branch and
never set it). -/
def hasErrorReturnOf : List ComponentIo → Bool
  | [] => false
  | o :: rest =>
    if !o.connections.isEmpty then hasErrorReturnOf rest
    else if o.isError then true
    else hasErrorReturnOf rest

/-- The call statement `RenderComponent` emits for a component: left-hand
targets per OUT port (adopted name when connected, `err` when error-like,
discard otherwise), callee qualified by the component's path, arguments per
IN port name, and the error guard whose early return forwards `err` for the
flo's error-like OUT ports and each other port's printed zero value. -/
def mkStmt (f : Flo) (c : Component) : Stmt :=
  let ins := insOf c.ios
  let outs := outsOf c.ios
  let lhs := outs.map (fun o =>
    if !o.connections.isEmpty then o.name
    else if o.isError then ("err") else ("_"))
  let guard := hasErrorReturnOf outs
  let guardRet :=
    if guard then
      (outsOf f.ios).map (fun o => if o.isError then ("err") else o.rtype.zeroLit)
    else []
  { cid := c.id, description := c.description, lhs := lhs,
    calleePkg := c.pkgPath, calleeName := c.name,
    args := ins.map (fun x => x.name),
    hasAssign := !outs.isEmpty, guard := guard, guardRet := guardRet }

/-- The return clause of the wrapper function (flo.go:411-424), translated
from the `Do` closure: nothing when there is no boundary OUT; when there is
exactly one, the closure adds the bare qualified type and then — missing the
early return present in the parameter closure — still adds the parenthesized
list; otherwise just the parenthesized list. -/
def retClauseOf : List ComponentIo → List RetTok
  | [] => []
  | o :: rest =>
    (if rest.isEmpty then [RetTok.qual o.rtype.pkgPath o.rtype.name] else [])
      ++ [RetTok.parens ((o :: rest).map (fun x => (x.rtype.pkgPath, x.rtype.name)))]

/-- Work items of the recursive `RenderComponent` traversal: render one
component, iterate its IN ports, iterate one port's connections. -/
inductive RenderTask where
  | comp (c : Component)
  | portList (l : List ComponentIo)
  | connList (l : List ComponentConnection)

/-- The recursive dependency-first traversal of `RenderComponent`
(flo.go:499-600), fuelled: Go's unbounded recursion is modelled by a fuel
parameter consumed at every step, and `FloErr.fuelExhausted` marks the runs
on which the Go original would still be recursing.  A component already
rendered is skipped; otherwise every connection of every IN port is visited
first — connections whose producer is the flo itself or already rendered are
skipped, a producer missing from the component map is the fatal ghost
condition — and then the component's own statement is appended and the
component marked rendered. -/
def renderStep (f : Flo) : Nat → RenderTask → List Stmt → Except FloErr (List Stmt)
  | 0, _, _ => Except.error FloErr.fuelExhausted
  | fuel + 1, RenderTask.comp c, st =>
    if renderedIn st c.id then Except.ok st
    else
      match renderStep f fuel (RenderTask.portList (insOf c.ios)) st with
      | Except.error e => Except.error e
      | Except.ok st1 => Except.ok (st1 ++ [mkStmt f c])
  | _ + 1, RenderTask.portList [], st => Except.ok st
  | fuel + 1, RenderTask.portList (x :: rest), st =>
    match renderStep f fuel (RenderTask.connList x.connections) st with
    | Except.error e => Except.error e
    | Except.ok st1 => renderStep f fuel (RenderTask.portList rest) st1
  | _ + 1, RenderTask.connList [], st => Except.ok st
  | fuel + 1, RenderTask.connList (k :: rest), st =>
    if f.id == k.outComponentId then renderStep f fuel (RenderTask.connList rest) st
    else if renderedIn st k.outComponentId then
      renderStep f fuel (RenderTask.connList rest) st
    else
      match lookupComp f k.outComponentId with
      | none => Except.error (FloErr.ghostOutgoing k.id k.outComponentId)
      | some outC =>
        match renderStep f fuel (RenderTask.comp outC) st with
        | Except.error e => Except.error e
        | Except.ok st1 => renderStep f fuel (RenderTask.connList rest) st1

/-- The inner loop of `Render`'s boundary pass (flo.go:432-454): for each
connection of a boundary IN port, the consuming component is looked up (a
miss is the fatal ghost condition) and rendered. -/
def boundaryConns (f : Flo) (fuel : Nat) :
    List ComponentConnection → List Stmt → Except FloErr (List Stmt)
  | [], st => Except.ok st
  | k :: rest, st =>
    match lookupComp f k.inComponentId with
    | none => Except.error (FloErr.ghostIngoing k.id k.inComponentId)
    | some c =>
      match renderStep f fuel (RenderTask.comp c) st with
      | Except.error e => Except.error e
      | Except.ok st1 => boundaryConns f fuel rest st1

/-- The outer loop of `Render`'s boundary pass over the flo's IN ports. -/
def boundaryIns (f : Flo) (fuel : Nat) :
    List ComponentIo → List Stmt → Except FloErr (List Stmt)
  | [], st => Except.ok st
  | x :: rest, st =>
    match boundaryConns f fuel x.connections st with
    | Except.error e => Except.error e
    | Except.ok st1 => boundaryIns f fuel rest st1

/-- The orphan pass of `Render` (flo.go:457-472): every component not yet
rendered is rendered.  Go ranges over the `Components` map here, whose
iteration order is unspecified; the order actually taken is the explicit
`perm` argument. -/
def orphanPass (f : Flo) (fuel : Nat) :
    List Component → List Stmt → Except FloErr (List Stmt)
  | [], st => Except.ok st
  | c :: rest, st =>
    if renderedIn st c.id then orphanPass f fuel rest st
    else
      match renderStep f fuel (RenderTask.comp c) st with
      | Except.error e => Except.error e
      | Except.ok st1 => orphanPass f fuel rest st1

/-- The final return statement of the wrapper (flo.go:475-490): per boundary
OUT port, its adopted name when connected, `nil` when error-like and
unconnected, the printed zero value otherwise. -/
def finalRetOf (floOuts : List ComponentIo) : List String :=
  floOuts.map (fun o =>
    if !o.connections.isEmpty then o.name
    else if o.isError then ("nil") else o.rtype.zeroLit)

/-- `Flo.Render` (flo.go:382-497): partition the boundary ports, run the
boundary pass then the orphan pass (the latter in the map iteration order
`perm`), and assemble the emitted function.  The writer side (jennifer) is
external; `RenderOut` is the content handed to it. -/
def renderFlo (f : Flo) (perm : List Component) (fuel : Nat) :
    Except FloErr RenderOut :=
  let floIns := insOf f.ios
  let floOuts := outsOf f.ios
  match boundaryIns f fuel floIns [] with
  | Except.error e => Except.error e
  | Except.ok st =>
    match orphanPass f fuel perm st with
    | Except.error e => Except.error e
    | Except.ok st1 =>
      Except.ok
        { pkgName := f.pkgName, pkgDescription := f.pkgDescription,
          funcName := f.name,
          params := floIns.map (fun x =>
            (if !x.connections.isEmpty then x.name else ("_"),
              x.rtype.pkgPath, x.rtype.name)),
          retClause := retClauseOf floOuts,
          body := st1,
          finalRet := finalRetOf floOuts }

/-- Splitting a character list at a separator, the semantics of Go's
`strings.Split` for a one-character separator: `split("") = [""]`, and every
separator occurrence starts a new segment. -/
def splitChar (sep : Char) : List Char → List (List Char)
  | [] => [[]]
  | c :: rest =>
    let r := splitChar sep rest
    if c == sep then [] :: r
    else
      match r with
      | [] => [[c]]
      | h :: t => (c :: h) :: t

/-- The last segment of a path qualifier: Go's `split[len(split)-1]` for
`strings.Split(pkgPath, "/")`. -/
def lastSegment (p : String) : String :=
  String.mk ((splitChar ('/') p.data).getLastD [])

/-- The outer key `Symbols` derives for a component (flo.go:613-614): the
path qualifier with its own last segment appended. -/
def derivedPath (p : String) : String :=
  p ++ ("/") ++ lastSegment p

/-- Set a key in the inner (name → callable) association map, replacing an
existing entry like a Go map assignment. -/
def setInner : List (String × FuncVal) → String → FuncVal → List (String × FuncVal)
  | [], k, v => [(k, v)]
  | (k1, v1) :: rest, k, v =>
    if k1 == k then (k, v) :: rest else (k1, v1) :: setInner rest k v

/-- Set a key in the outer (qualifier → inner map) association map. -/
def setOuter : List (String × List (String × FuncVal)) → String → String → FuncVal →
    List (String × List (String × FuncVal))
  | [], q, k, v => [(q, setInner [] k v)]
  | (q1, m) :: rest, q, k, v =>
    if q1 == q then (q, setInner m k v) :: rest else (q1, m) :: setOuter rest q k v

/-- One iteration of the `Symbols` loop (flo.go:608-621): a component with
an empty name or empty path qualifier contributes nothing; any other is
entered under the derived qualifier, mapping its name to its callable. -/
def symStep (acc : List (String × List (String × FuncVal))) (c : Component) :
    List (String × List (String × FuncVal)) :=
  if c.name == "" || c.pkgPath == "" then acc
  else setOuter acc (derivedPath c.pkgPath) c.name c.value

/-- `Flo.Symbols` (flo.go:602), folding the loop body over the components in
the model's iteration order (the result, a map, is order-independent up to
name collisions under one derived qualifier). -/
def symbols (f : Flo) : List (String × List (String × FuncVal)) :=
  f.components.foldl symStep []

/-- `NewComponentIO` (flo.go:654): unknown direction and invalid type
descriptors and the nil parent are rejected; a non-empty name is coerced by
the external `lo.CamelCase`, passed here as `camelCase`; the error-like flag
is the type descriptor's error-interface check; the id is `uuid.New()`,
passed as `freshId`. -/
def newComponentIo (camelCase : String → String) (name : String)
    (typ : ComponentIoType) (rtype : TypeDesc) (parentId freshId : Nat) :
    Except FloErr ComponentIo :=
  if typ == ComponentIoType.unknown then Except.error FloErr.unknownIoType
  else
    let coerced := if !(name == "") then camelCase name else name
    if !rtype.isValid then Except.error FloErr.invalidIoRType
    else if parentId == 0 then Except.error FloErr.invalidParentId
    else Except.ok ⟨freshId, coerced, typ, rtype, rtype.implementsError, parentId, []⟩

/-- The name `NewComponentIOsFromComponent` gives the i-th OUT port, before
camel-casing: `io` followed by the hex SHA-1 digest (the external `sha1hex`)
of `pkgPath-name-i` (flo.go:710-712). -/
def outIoRawName (sha1hex : String → String) (pkgPath cname : String) (i : Nat) : String :=
  ("io") ++ sha1hex (pkgPath ++ ("-") ++ cname ++ ("-") ++ toString i)

/-- The IN-port loop of `NewComponentIOsFromComponent` (flo.go:693-706): one
port per callable parameter, in order, each created with the empty name.
Fresh ids are `fresh`, `fresh+1`, …. -/
def mkInIos (camelCase : String → String) (parentId : Nat) :
    List TypeDesc → Nat → Except FloErr (List ComponentIo)
  | [], _ => Except.ok []
  | t :: rest, fresh =>
    match newComponentIo camelCase ("") ComponentIoType.IN t parentId fresh with
    | Except.error e => Except.error e
    | Except.ok x =>
      match mkInIos camelCase parentId rest (fresh + 1) with
      | Except.error e => Except.error e
      | Except.ok l => Except.ok (x :: l)

/-- The OUT-port loop of `NewComponentIOsFromComponent` (flo.go:708-722): one
port per return value, named from the digest of qualifier, name and index. -/
def mkOutIos (camelCase sha1hex : String → String) (pkgPath cname : String)
    (parentId : Nat) : List TypeDesc → Nat → Nat → Except FloErr (List ComponentIo)
  | [], _, _ => Except.ok []
  | t :: rest, i, fresh =>
    match newComponentIo camelCase (outIoRawName sha1hex pkgPath cname i)
        ComponentIoType.OUT t parentId fresh with
    | Except.error e => Except.error e
    | Except.ok x =>
      match mkOutIos camelCase sha1hex pkgPath cname parentId rest (i + 1) (fresh + 1) with
      | Except.error e => Except.error e
      | Except.ok l => Except.ok (x :: l)

/-- `NewComponentIOsFromComponent` (flo.go:683): requires a non-nil component
id and a callable of function kind, then derives IN ports from the
parameters followed by OUT ports from the return values. -/
def newComponentIosFromComponent (camelCase sha1hex : String → String)
    (c : Component) (fresh : Nat) : Except FloErr (List ComponentIo) :=
  if c.id == 0 then Except.error FloErr.invalidParentId
  else if !c.value.isFunc then Except.error FloErr.notAFunction
  else
    match mkInIos camelCase c.id c.value.ins fresh with
    | Except.error e => Except.error e
    | Except.ok insL =>
      match mkOutIos camelCase sha1hex c.pkgPath c.name c.id c.value.outs 0
          (fresh + c.value.ins.length) with
      | Except.error e => Except.error e
      | Except.ok outsL => Except.ok (insL ++ outsL)

end Flo

namespace Flo

/-- Ids of the registered components, in model order. -/
def compIds (f : Flo) : List Nat :=
  f.components.map (fun c => c.id)

/-- The dependency edges the renderer follows: `(a, b)` when some registered
component with id `b` has an IN port holding a connection whose out side is
the non-boundary component id `a` (connections from the flo itself are
skipped by `RenderComponent`). -/
def edges (f : Flo) : List (Nat × Nat) :=
  f.components.flatMap (fun c =>
    (insOf c.ios).flatMap (fun x =>
      x.connections.filterMap (fun k =>
        if k.outComponentId == f.id then none
        else some (k.outComponentId, c.id))))

/-- Well-formedness of a graph state as the renderer needs it: component ids
are unique (they key a Go map), every non-boundary producer referenced from a
registered component's IN port is registered, and every consumer referenced
from a boundary IN port is registered. -/
def WFlo (f : Flo) : Prop :=
  (compIds f).Nodup ∧
  (∀ c ∈ f.components, ∀ x ∈ insOf c.ios, ∀ k ∈ x.connections,
    k.outComponentId ≠ f.id → (lookupComp f k.outComponentId).isSome = true) ∧
  (∀ x ∈ insOf f.ios, ∀ k ∈ x.connections,
    (lookupComp f k.inComponentId).isSome = true)

instance (f : Flo) : Decidable (WFlo f) := by
  unfold WFlo; infer_instance

/-- Every emitted statement is preceded by the statements of all its
dependency producers: whenever the body splits around a statement `s`, every
edge source feeding `s.cid` already occurs to the left. -/
def UpClosed (f : Flo) (st : List Stmt) : Prop :=
  ∀ l1 s l2, st = l1 ++ s :: l2 → ∀ a, (a, s.cid) ∈ edges f → a ∈ stmtIds l1

/-- Invariant carried through the traversal: emitted ids are distinct,
registered, and dependency-closed in order. -/
structure RenderInv (f : Flo) (st : List Stmt) : Prop where
  nodup : (stmtIds st).Nodup
  sub : ∀ i ∈ stmtIds st, i ∈ compIds f
  closed : UpClosed f st

/-- Full success contract of rendering one component from a state: some fuel
suffices, the traversal only appends, appends only registered ids of rank at
most the component's, ends with the component emitted, and preserves the
invariant. -/
def CompOk (f : Flo) (rk : Nat → Nat) (c : Component) : Prop :=
  ∀ st, RenderInv f st → ∃ fuel st' new,
    renderStep f fuel (RenderTask.comp c) st = Except.ok st' ∧
    st' = st ++ new ∧
    (∀ i ∈ stmtIds new, i ∈ compIds f ∧ rk i ≤ rk c.id) ∧
    c.id ∈ stmtIds st' ∧ RenderInv f st'

/-- The hypothesis of the claim on rendering, as stated: the connection
structure has no cycle of length greater than one, i.e. some rank function
strictly increases along every dependency edge between two distinct
components (self-loop edges are not constrained). -/
def NoLongCycle (f : Flo) : Prop :=
  ∃ rk : Nat → Nat, ∀ p ∈ edges f, p.1 ≠ p.2 → rk p.1 < rk p.2

/-- Spec-side reference for `ConnectComponent`'s validation sequence, the
amended order: nil ids, out side resolution, in side resolution, self-loop,
out then in direction, occupied in port, duplicate edge, assignability; the
first violated rule's error is returned, `none` when all pass. -/
def connectFirstErr (assignable : TypeDesc → TypeDesc → Bool) (f : Flo)
    (outCid outIoId inCid inIoId : Nat) : Option FloErr :=
  if outCid == 0 then some FloErr.invalidOutComponentId
  else if outIoId == 0 then some FloErr.invalidOutComponentIoId
  else if inCid == 0 then some FloErr.invalidInComponentId
  else if inIoId == 0 then some FloErr.invalidInComponentIoId
  else
    let isFloOutgoing := outCid == f.id
    match (if isFloOutgoing then some f.ios else (lookupComp f outCid).map Component.ios) with
    | none => some (FloErr.noOutComponent outCid)
    | some outIos =>
      match getByID outIos outIoId with
      | none => some (FloErr.noOutComponentIo outIoId outCid)
      | some outIo =>
        let isFloIngoing := inCid == f.id
        match (if isFloIngoing then some f.ios else (lookupComp f inCid).map Component.ios) with
        | none => some (FloErr.noInComponent outCid)
        | some inIos =>
          match getByID inIos inIoId with
          | none => some (FloErr.noInComponentIo inIoId inCid)
          | some inIo =>
            if outCid == inCid then some (FloErr.selfConnection outCid)
            else if !isFloOutgoing && !(outIo.typ == ComponentIoType.OUT) then
              some (FloErr.outIoNotTypeOut outIoId)
            else if isFloOutgoing && !(outIo.typ == ComponentIoType.IN) then
              some (FloErr.outFloIoNotTypeIn outIoId)
            else if !isFloIngoing && !(inIo.typ == ComponentIoType.IN) then
              some (FloErr.inIoNotTypeIn inIoId)
            else if isFloIngoing && !(inIo.typ == ComponentIoType.OUT) then
              some (FloErr.inFloIoNotTypeOut inIoId)
            else if !inIo.connections.isEmpty then
              some (FloErr.alreadyConnected inIoId)
            else if dupEdgeExists isFloOutgoing outIos inIo.id then
              some (FloErr.duplicateEdge inCid outCid outIoId)
            else if !(assignable outIo.rtype inIo.rtype) then
              some (FloErr.notAssignable outIoId inIoId)
            else none

/-- Outer lookup in the symbol table. -/
def lookupOuter (s : List (String × List (String × FuncVal))) (q : String) :
    Option (List (String × FuncVal)) :=
  (s.find? (fun p => p.1 == q)).map (fun p => p.2)

/-- Inner lookup in one qualifier's (name → callable) map. -/
def lookupInner (m : List (String × FuncVal)) (k : String) : Option FuncVal :=
  (m.find? (fun p => p.1 == k)).map (fun p => p.2)

/-- Spec-side closed form of the IN-port loop of
`NewComponentIOsFromComponent`: one IN port per parameter type in order,
empty name, consecutive fresh ids. -/
def inIosSpec (parentId : Nat) : List TypeDesc → Nat → List ComponentIo
  | [], _ => []
  | t :: rest, fresh =>
    ⟨fresh, "", ComponentIoType.IN, t, t.implementsError, parentId, []⟩ ::
      inIosSpec parentId rest (fresh + 1)

/-- Spec-side closed form of the OUT-port loop: one OUT port per return type
in order, named by camel-casing `io` + digest of qualifier, name and index. -/
def outIosSpec (camelCase sha1hex : String → String) (pkgPath cname : String)
    (parentId : Nat) : List TypeDesc → Nat → Nat → List ComponentIo
  | [], _, _ => []
  | t :: rest, i, fresh =>
    ⟨fresh, camelCase (outIoRawName sha1hex pkgPath cname i),
      ComponentIoType.OUT, t, t.implementsError, parentId, []⟩ ::
      outIosSpec camelCase sha1hex pkgPath cname parentId rest (i + 1) (fresh + 1)

end Flo

/-! ### Concrete fixtures used by counterexamples and witnesses -/

/-- The Go `int` type descriptor. -/
def tInt : TypeDesc := ⟨"", "int", false, true, "0"⟩

/-- The Go `error` interface type descriptor. -/
def tErr : TypeDesc := ⟨"", "error", true, true, "<nil>"⟩

/-- A parameterless, returnless callable. -/
def fv0 : FuncVal := ⟨true, [], []⟩

/-- Connection id 5 from the flo's own boundary IN port 10 to port 20 of
component 2, as a successful `ConnectComponent` of rule 1 creates it. -/
def connB : ComponentConnection := ⟨5, 1, 10, 2, 20⟩

/-- Boundary IN port of the fixture flo, carrying `connB`. -/
def ioBoundaryIn : ComponentIo := ⟨10, "in", ComponentIoType.IN, tInt, false, 1, [connB]⟩

/-- IN port of component 2, carrying `connB`. -/
def ioCompIn : ComponentIo := ⟨20, "in", ComponentIoType.IN, tInt, false, 2, [connB]⟩

/-- Component 2 of the boundary-connection fixture. -/
def compBnd : Component := ⟨2, "CompA", "p", "", "", ⟨true, [tInt], []⟩, [ioCompIn]⟩

/-- A flo whose single connection runs from its own boundary IN port into a
registered component, exactly the state a successful boundary `Connect`
produces. -/
def floBnd : Flo := ⟨1, "F", "L", "D", "p", "pd", [compBnd], [ioBoundaryIn], [(5, connB)]⟩

/-- The empty flo. -/
def floEmpty : Flo := ⟨1, "F", "L", "D", "p", "pd", [], [], []⟩

/-- Component with name `f` and path qualifier `p`. -/
def compP : Component := ⟨2, "f", "p", "", "", fv0, []⟩

/-- Flo registering only `compP`. -/
def floP : Flo := ⟨1, "F", "L", "D", "p", "pd", [compP], [], []⟩

/-- Two IN ports on one component, for the self-loop/direction ordering
counterexample. -/
def ioDirA : ComponentIo := ⟨3, "a", ComponentIoType.IN, tInt, false, 2, []⟩

/-- Second IN port of the same component. -/
def ioDirB : ComponentIo := ⟨4, "b", ComponentIoType.IN, tInt, false, 2, []⟩

/-- Component with two IN ports. -/
def compDir : Component := ⟨2, "C", "p", "", "", fv0, [ioDirA, ioDirB]⟩

/-- Flo registering `compDir`. -/
def floDir : Flo := ⟨1, "F", "L", "D", "p", "pd", [compDir], [], []⟩

/-- A single boundary OUT port of type int. -/
def ioOneOut : ComponentIo := ⟨30, "result", ComponentIoType.OUT, tInt, false, 1, []⟩

/-- Flo with exactly one boundary OUT port and nothing else. -/
def floOneOut : Flo := ⟨1, "F", "L", "D", "p", "pd", [], [ioOneOut], []⟩

/-- Connection id 6 from component 2's error OUT port 21 to component 3's IN
port 31. -/
def connE : ComponentConnection := ⟨6, 2, 21, 3, 31⟩

/-- An error-like OUT port that has an outgoing connection. -/
def ioErrOut : ComponentIo := ⟨21, "ioerr", ComponentIoType.OUT, tErr, true, 2, [connE]⟩

/-- Component whose only output is a connected error-like OUT port. -/
def compErrConn : Component := ⟨2, "CompE", "p", "", "descE", ⟨true, [], [tErr]⟩, [ioErrOut]⟩

/-- Two components with no connections at all: both are orphans for the
renderer. -/
def compOrphA : Component := ⟨2, "A", "p", "", "dA", fv0, []⟩

/-- Second orphan component. -/
def compOrphB : Component := ⟨3, "B", "p", "", "dB", fv0, []⟩

/-- Flo with two orphan components and no boundary ports. -/
def floOrph : Flo := ⟨1, "F", "L", "D", "p", "pd", [compOrphA, compOrphB], [], []⟩

/-- A self-loop connection: component 2 feeds its own IN port. -/
def connSelf : ComponentConnection := ⟨5, 2, 21, 2, 20⟩

/-- IN port of the self-loop component, carrying `connSelf`. -/
def ioSelfIn : ComponentIo := ⟨20, "x", ComponentIoType.IN, tInt, false, 2, [connSelf]⟩

/-- OUT port of the self-loop component, carrying `connSelf`. -/
def ioSelfOut : ComponentIo := ⟨21, "x", ComponentIoType.OUT, tInt, false, 2, [connSelf]⟩

/-- Component with a direct self-loop (a cycle of length exactly one). -/
def compSelf : Component := ⟨2, "Loop", "p", "", "d", ⟨true, [tInt], [tInt]⟩, [ioSelfIn, ioSelfOut]⟩

/-- Flo registering the self-loop component, with the connection indexed. -/
def floSelf : Flo := ⟨1, "F", "L", "D", "p", "pd", [compSelf], [], [(5, connSelf)]⟩

/-- Connection id 5 from the flo's boundary IN port 10 to component 2. -/
def connR1 : ComponentConnection := ⟨5, 1, 10, 2, 20⟩

/-- Connection id 6 from the flo's boundary IN port 10 to component 3. -/
def connR2 : ComponentConnection := ⟨6, 1, 10, 3, 30⟩

/-- Boundary IN port fanning out to both components. -/
def ioR10 : ComponentIo := ⟨10, "in", ComponentIoType.IN, tInt, false, 1, [connR1, connR2]⟩

/-- First boundary-reached component. -/
def compR2 : Component :=
  ⟨2, "A", "p", "", "dA", ⟨true, [tInt], []⟩,
    [⟨20, "in", ComponentIoType.IN, tInt, false, 2, [connR1]⟩]⟩

/-- Second boundary-reached component. -/
def compR3 : Component :=
  ⟨3, "B", "p", "", "dB", ⟨true, [tInt], []⟩,
    [⟨30, "in", ComponentIoType.IN, tInt, false, 3, [connR2]⟩]⟩

/-- Flo in which every component is reached from the boundary pass, leaving
no orphans. -/
def floR : Flo := ⟨1, "F", "L", "D", "p", "pd", [compR2, compR3], [ioR10],
  [(5, connR1), (6, connR2)]⟩

/-- The statements the boundary pass of `floR` emits. -/
def stR : List Flo.Stmt := [Flo.mkStmt floR compR2, Flo.mkStmt floR compR3]

namespace Flo

/-- Two-level symbol-table lookup: the callable registered under qualifier
`q` and name `k`. -/
def innerAt (s : List (String × List (String × FuncVal))) (q k : String) :
    Option FuncVal :=
  match lookupOuter s q with
  | none => none
  | some m => lookupInner m k

end Flo

/-- Component used to witness port derivation: one int parameter, one error
return. -/
def compW10a : Component := ⟨2, "f", "p", "", "", ⟨true, [tInt], [tErr]⟩, []⟩

/-- Second component sharing `compW10a`'s name, qualifier and callable but
with a different id. -/
def compW10b : Component := ⟨3, "f", "p", "", "", ⟨true, [tInt], [tErr]⟩, []⟩

/-- Ports derived for `compW10a` with fresh ids from 10. -/
def lW10a : List ComponentIo :=
  [⟨10, "", ComponentIoType.IN, tInt, false, 2, []⟩,
   ⟨11, "iop-f-0", ComponentIoType.OUT, tErr, true, 2, []⟩]

/-- Ports derived for `compW10b` with fresh ids from 20. -/
def lW10b : List ComponentIo :=
  [⟨20, "", ComponentIoType.IN, tInt, false, 3, []⟩,
   ⟨21, "iop-f-0", ComponentIoType.OUT, tErr, true, 3, []⟩]

/-! ### Theorems -/

open Flo

/-- Helper: the `hasErrorReturn` fold equals an `any` over the OUT ports. -/
theorem hasErrorReturnOf_eq_any (l : List ComponentIo) :
    Flo.hasErrorReturnOf l = l.any (fun o => o.connections.isEmpty && o.isError) := by
  induction l with
  | nil => rfl
  | cons o rest ih =>
    by_cases h1 : o.connections.isEmpty <;> by_cases h2 : o.isError <;>
      simp [Flo.hasErrorReturnOf, h1, h2, ih]

/-- C1: counter-evidence.  The connection of `floBnd` is indexed under id 5
and its out side is the flo's own boundary port (as a successful boundary
`Connect` creates it), yet `DeleteConnection` fails — the boundary out side
is looked up among registered components only — and the deferred index
delete still fires, so the failing call also removes the index entry. -/
theorem deleteConnection_boundary_out_fails_and_unindexes :
    Flo.lookupConn floBnd 5 = some connB ∧
    Flo.deleteConnection floBnd 5 =
      (some (FloErr.noOutComponent 1), { floBnd with connectionIndex := [] }) := by
  exact ⟨rfl, rfl⟩

/-- C2: counter-evidence.  `DeleteConnection` on the boundary-out connection
of `floBnd` returns an error, yet the post-call state differs from the
pre-call state: the index entry is gone while both ports still reference the
connection, so the port/index consistency invariant is broken by a failing
operation. -/
theorem deleteConnection_errs_yet_mutates :
    (Flo.deleteConnection floBnd 5).1 = some (FloErr.noOutComponent 1) ∧
    (Flo.deleteConnection floBnd 5).2 ≠ floBnd ∧
    Flo.lookupConn (Flo.deleteConnection floBnd 5).2 5 = none ∧
    (∃ x ∈ (Flo.deleteConnection floBnd 5).2.ios, connB ∈ x.connections) ∧
    (∃ c ∈ (Flo.deleteConnection floBnd 5).2.components,
      ∃ x ∈ c.ios, connB ∈ x.connections) := by
  decide

/-- C4: counterexample.  With both sides resolving on the same registered
component and an out port of direction IN, both the out-direction rule and
the self-loop rule are violated; the claim picks the direction error, the
code returns the self-loop error, because `ConnectComponent` checks the
self-loop right after resolving the two sides and before any direction
check. -/
theorem connect_selfloop_error_masks_direction :
    (Flo.getByID compDir.ios 3).map ComponentIo.typ = some ComponentIoType.IN ∧
    (Flo.connectComponent (fun _ _ => true) floDir 2 3 2 4 99).1 =
      some (FloErr.selfConnection 2) := by
  decide

/-- C5: code-bug evidence.  For a flo with exactly one boundary OUT port the
emitted return clause contains the bare qualified type and then — because
the `Do` closure at flo.go:416-423 lacks the early return its parameter
counterpart has — additionally the parenthesized single-element list, which
is not valid Go (`func F() int (int)`). -/
theorem render_single_out_retclause_duplicated :
    ∃ out, Flo.renderFlo floOneOut [] 1 = Except.ok out ∧
      out.retClause = [RetTok.qual ("") ("int"), RetTok.parens [((""), ("int"))]] := by
  exact ⟨_, rfl, rfl⟩

/-- C6: counterexample.  `compErrConn` has an error-like OUT port, but that
port carries a connection, so the left-hand-side loop takes the
connected-port branch and never sets `hasErrorReturn`: no guard follows the
call statement, contradicting the claim's `regardless of whether that error
output port itself carries outgoing connections`. -/
theorem guard_skipped_for_connected_error_out :
    ((Flo.outsOf compErrConn.ios).any (fun o => o.isError)) = true ∧
    (Flo.mkStmt floEmpty compErrConn).guard = false := by
  decide

/-- C6 (amended): the error guard is emitted exactly when some OUT port of
the component is error-like and has no outgoing connection, and the guard's
early return then lists, for each boundary OUT port of the flo, `err` when
error-like and the port type's zero value otherwise. -/
theorem mkStmt_guard_characterization (f : Flo) (c : Component) :
    (Flo.mkStmt f c).guard =
      (Flo.outsOf c.ios).any (fun o => o.connections.isEmpty && o.isError) ∧
    ((Flo.mkStmt f c).guard = true →
      (Flo.mkStmt f c).guardRet =
        (Flo.outsOf f.ios).map (fun o => if o.isError then ("err") else o.rtype.zeroLit)) := by
  refine ⟨by simpa [Flo.mkStmt] using hasErrorReturnOf_eq_any (Flo.outsOf c.ios), ?_⟩
  intro h
  simp only [Flo.mkStmt] at h ⊢
  simp [h]

/-- C7: counterexample.  Deleting an unregistered (non-nil) component id
succeeds: the guard only fires when the id is found, and the map delete of
an absent key is a no-op, so no `unknown component` failure exists. -/
theorem deleteComponent_unknown_succeeds :
    Flo.lookupComp floEmpty 5 = none ∧
    Flo.deleteComponent floEmpty 5 = (none, floEmpty) := by
  decide

/-- C7 (amended): `DeleteComponent` succeeds iff the id is non-nil and no
registered component with that id has a connected port; failing calls leave
the state unchanged, and successful calls remove exactly the components with
that id and touch nothing else. -/
theorem deleteComponent_characterization (f : Flo) (cid : Nat) :
    ((Flo.deleteComponent f cid).1 = none ↔
      cid ≠ 0 ∧ ∀ c, Flo.lookupComp f cid = some c → Flo.hasConnections c.ios = false) ∧
    ((Flo.deleteComponent f cid).1 ≠ none → (Flo.deleteComponent f cid).2 = f) ∧
    ((Flo.deleteComponent f cid).1 = none →
      (Flo.deleteComponent f cid).2 =
        { f with components := f.components.filter (fun y => !(y.id == cid)) }) := by
  unfold Flo.deleteComponent
  by_cases h0 : cid == 0
  · simp_all
  · simp only [h0]
    cases hc : Flo.lookupComp f cid with
    | none => simp_all
    | some c =>
      by_cases hh : Flo.hasConnections c.ios <;> simp_all

/-- C8: counterexample.  For a component with name `f` and path qualifier
`p`, `Symbols` keys the outer mapping by `p/p` — the qualifier with its last
segment appended (flo.go:613-614) — not by the qualifier `p` itself. -/
theorem symbols_key_has_suffix :
    Flo.symbols floP = [(("p/p"), [(("f"), fv0)])] ∧
    ¬ (("p") ∈ (Flo.symbols floP).map Prod.fst) := by
  decide

/-- C9: counterexample.  `floOrph` has two orphan components; the orphan pass
ranges over the Go components map, so both orders below are orders an
invocation may take, and they yield different outputs. -/
theorem render_depends_on_orphan_order :
    [compOrphA, compOrphB].Perm floOrph.components ∧
    [compOrphB, compOrphA].Perm floOrph.components ∧
    Flo.renderFlo floOrph [compOrphA, compOrphB] 2 ≠
      Flo.renderFlo floOrph [compOrphB, compOrphA] 2 := by
  refine ⟨by decide, by decide, ?_⟩
  intro h
  have h1 : Flo.renderFlo floOrph [compOrphA, compOrphB] 2 = Except.ok
      { pkgName := ("p"), pkgDescription := ("pd"), funcName := ("F"),
        params := [], retClause := [],
        body := [Flo.mkStmt floOrph compOrphA, Flo.mkStmt floOrph compOrphB],
        finalRet := [] } := rfl
  have h2 : Flo.renderFlo floOrph [compOrphB, compOrphA] 2 = Except.ok
      { pkgName := ("p"), pkgDescription := ("pd"), funcName := ("F"),
        params := [], retClause := [],
        body := [Flo.mkStmt floOrph compOrphB, Flo.mkStmt floOrph compOrphA],
        finalRet := [] } := rfl
  rw [h1, h2] at h
  have hb : [Flo.mkStmt floOrph compOrphA, Flo.mkStmt floOrph compOrphB]
      = [Flo.mkStmt floOrph compOrphB, Flo.mkStmt floOrph compOrphA] :=
    congrArg RenderOut.body (Except.ok.inj h)
  have hc := congrArg (fun l => l.map Flo.Stmt.cid) hb
  simp [Flo.mkStmt, compOrphA, compOrphB] at hc

/-- C3: counterexample.  `floSelf` is well-formed and its connection
structure has no cycle of length greater than one — only the direct
self-loop on component 2 — yet rendering runs out of any amount of fuel:
the Go original recurses forever, because the rendered-set check only fires
after a component finishes, which a self-loop never lets happen. -/
theorem render_selfloop_diverges :
    WFlo floSelf ∧ NoLongCycle floSelf ∧
    ∀ fuel, Flo.renderFlo floSelf floSelf.components fuel =
      Except.error FloErr.fuelExhausted := by
  refine ⟨by decide, ⟨fun _ => 0, by decide⟩, ?_⟩
  have e1 : ∀ m st, Flo.renderStep floSelf (m + 1) (Flo.RenderTask.comp compSelf) st =
      if Flo.renderedIn st 2 then Except.ok st
      else
        match Flo.renderStep floSelf m (Flo.RenderTask.portList [ioSelfIn]) st with
        | Except.error e => Except.error e
        | Except.ok st1 => Except.ok (st1 ++ [Flo.mkStmt floSelf compSelf]) :=
    fun _ _ => rfl
  have e2 : ∀ m st, Flo.renderStep floSelf (m + 1) (Flo.RenderTask.portList [ioSelfIn]) st =
      match Flo.renderStep floSelf m (Flo.RenderTask.connList [connSelf]) st with
      | Except.error e => Except.error e
      | Except.ok st1 => Flo.renderStep floSelf m (Flo.RenderTask.portList []) st1 :=
    fun _ _ => rfl
  have e3 : ∀ m st, Flo.renderStep floSelf (m + 1) (Flo.RenderTask.connList [connSelf]) st =
      if Flo.renderedIn st 2 then Flo.renderStep floSelf m (Flo.RenderTask.connList []) st
      else
        match Flo.renderStep floSelf m (Flo.RenderTask.comp compSelf) st with
        | Except.error e => Except.error e
        | Except.ok st1 => Flo.renderStep floSelf m (Flo.RenderTask.connList []) st1 :=
    fun _ _ => rfl
  have key : ∀ fuel st, Flo.renderedIn st 2 = false →
      Flo.renderStep floSelf fuel (Flo.RenderTask.comp compSelf) st =
        Except.error FloErr.fuelExhausted := by
    intro fuel
    induction fuel using Nat.strong_induction_on with
    | _ fuel IH =>
      rcases fuel with _ | _ | _ | n
      · intro st h; rfl
      · intro st h
        rw [e1, h]; rfl
      · intro st h
        rw [e1, h]
        simp only [Bool.false_eq_true, if_false, e2]
        rfl
      · intro st h
        have ih := IH n (by omega) st h
        rw [e1, h]
        simp only [Bool.false_eq_true, if_false, e2, e3, h, ih]
  intro fuel
  have hk := key fuel [] rfl
  have hins : Flo.insOf floSelf.ios = [] := rfl
  have hcomps : floSelf.components = [compSelf] := rfl
  have hne : Flo.renderedIn [] compSelf.id = false := rfl
  simp only [Flo.renderFlo, hins, hcomps, Flo.boundaryIns, Flo.orphanPass, hne,
    Bool.false_eq_true, if_false, hk]

set_option maxHeartbeats 1600000 in
/-- C4 (amended): `ConnectComponent` returns exactly the error of the first
violated rule in the source's order — nil ids, out side resolves, in side
resolves, no self-loop, out direction, in direction, in port unoccupied, no
duplicate edge, assignability — and `none` exactly when all rules pass. -/
theorem connect_validation_order (assignable : TypeDesc → TypeDesc → Bool) (f : Flo)
    (outCid outIoId inCid inIoId freshId : Nat) :
    (Flo.connectComponent assignable f outCid outIoId inCid inIoId freshId).1 =
      Flo.connectFirstErr assignable f outCid outIoId inCid inIoId := by
  unfold Flo.connectComponent Flo.connectFirstErr
  by_cases h1 : outCid == 0
  · simp [h1]
  · by_cases h2 : outIoId == 0
    · simp [h1, h2]
    · by_cases h3 : inCid == 0
      · simp [h1, h2, h3]
      · by_cases h4 : inIoId == 0
        · simp [h1, h2, h3, h4]
        · simp only [h1, h2, h3, h4, Bool.false_eq_true, if_false]
          repeat' split
          all_goals try rfl
          all_goals simp_all [Flo.newComponentConnect]

/-- Helper: the generated OUT-port raw name starts with `io`, hence is never
empty, so `NewComponentIO` always applies the camel-case coercion to it. -/
theorem outIoRawName_ne_empty (sha1hex : String → String) (p n : String) (i : Nat) :
    (Flo.outIoRawName sha1hex p n i == "") = false := by
  apply beq_eq_false_iff_ne.mpr
  intro hcontra
  have hl := congrArg String.length hcontra
  rw [Flo.outIoRawName, String.length_append] at hl
  have h2 : String.length ("io") = 2 := rfl
  have h0 : String.length ("") = 0 := rfl
  rw [h2, h0] at hl
  omega

/-- Helper: a successful IN-port loop produces exactly the spec-side list. -/
theorem mkInIos_ok (camelCase : String → String) (parentId : Nat)
    (hp : (parentId == 0) = false) :
    ∀ ts fresh l, Flo.mkInIos camelCase parentId ts fresh = Except.ok l →
      l = Flo.inIosSpec parentId ts fresh := by
  intro ts
  induction ts with
  | nil =>
    intro fresh l h
    simp only [Flo.mkInIos] at h
    cases h
    rfl
  | cons t rest ih =>
    intro fresh l h
    simp only [Flo.mkInIos] at h
    have hnio : Flo.newComponentIo camelCase ("") ComponentIoType.IN t parentId fresh =
        if (!t.isValid) = true then Except.error FloErr.invalidIoRType
        else if (parentId == 0) = true then Except.error FloErr.invalidParentId
        else Except.ok ⟨fresh, "", ComponentIoType.IN, t, t.implementsError, parentId, []⟩ :=
      rfl
    rw [hnio] at h
    by_cases hv : t.isValid = true
    · rw [if_neg (by simp [hv]), if_neg (by simp [hp])] at h
      cases hrec : Flo.mkInIos camelCase parentId rest (fresh + 1) with
      | error e => rw [hrec] at h; cases h
      | ok l2 =>
        rw [hrec] at h
        cases h
        simp [Flo.inIosSpec, ih _ _ hrec]
    · rw [Bool.not_eq_true] at hv
      rw [if_pos (by simp [hv])] at h
      cases h

/-- Helper: a successful OUT-port loop produces exactly the spec-side list. -/
theorem mkOutIos_ok (camelCase sha1hex : String → String) (pkgPath cname : String)
    (parentId : Nat) (hp : (parentId == 0) = false) :
    ∀ ts i fresh l,
      Flo.mkOutIos camelCase sha1hex pkgPath cname parentId ts i fresh = Except.ok l →
      l = Flo.outIosSpec camelCase sha1hex pkgPath cname parentId ts i fresh := by
  intro ts
  induction ts with
  | nil =>
    intro i fresh l h
    simp only [Flo.mkOutIos] at h
    cases h
    rfl
  | cons t rest ih =>
    intro i fresh l h
    simp only [Flo.mkOutIos] at h
    have hnio : Flo.newComponentIo camelCase (Flo.outIoRawName sha1hex pkgPath cname i)
        ComponentIoType.OUT t parentId fresh =
        if (!t.isValid) = true then Except.error FloErr.invalidIoRType
        else if (parentId == 0) = true then Except.error FloErr.invalidParentId
        else Except.ok ⟨fresh, camelCase (Flo.outIoRawName sha1hex pkgPath cname i),
          ComponentIoType.OUT, t, t.implementsError, parentId, []⟩ := by
      have hne := outIoRawName_ne_empty sha1hex pkgPath cname i
      unfold Flo.newComponentIo
      simp [hne]
    rw [hnio] at h
    by_cases hv : t.isValid = true
    · rw [if_neg (by simp [hv]), if_neg (by simp [hp])] at h
      cases hrec : Flo.mkOutIos camelCase sha1hex pkgPath cname parentId rest (i + 1) (fresh + 1) with
      | error e => rw [hrec] at h; cases h
      | ok l2 =>
        rw [hrec] at h
        cases h
        simp [Flo.outIosSpec, ih _ _ _ hrec]
    · rw [Bool.not_eq_true] at hv
      rw [if_pos (by simp [hv])] at h
      cases h

/-- Helper: the spec-side OUT-port names depend only on the qualifier, the
component name and the index — not on the parent id or the fresh ids. -/
theorem outIosSpec_names (camelCase sha1hex : String → String) (pkgPath cname : String) :
    ∀ ts i parentId fresh parentId' fresh',
      (Flo.outIosSpec camelCase sha1hex pkgPath cname parentId ts i fresh).map
          ComponentIo.name =
        (Flo.outIosSpec camelCase sha1hex pkgPath cname parentId' ts i fresh').map
          ComponentIo.name := by
  intro ts
  induction ts with
  | nil => intro i p f p' f'; rfl
  | cons t rest ih =>
    intro i p f p' f'
    simp only [Flo.outIosSpec, List.map_cons]
    rw [ih (i + 1) p (f + 1) p' (f' + 1)]

/-- Helper: the spec-side IN-port names are all empty. -/
theorem inIosSpec_names (parentId : Nat) :
    ∀ ts fresh, (Flo.inIosSpec parentId ts fresh).map ComponentIo.name =
      ts.map (fun _ => ("")) := by
  intro ts
  induction ts with
  | nil => intro fresh; rfl
  | cons t rest ih => intro fresh; simp [Flo.inIosSpec, ih]

/-- C10: for every component whose ports `NewComponentIOsFromComponent`
successfully derives, the port list is exactly one IN port per callable
parameter in order, created with the empty name (adopted later on connect),
followed by one OUT port per return value whose name is the camel-cased
`io` + SHA-1 digest of (qualifier, name, index) — a function of those three
alone — and every port's error-like flag equals its type's error-interface
check; consequently a second component sharing the name and qualifier (and
callable) gets the identical port-name sequence. -/
theorem newComponentIos_shape (camelCase sha1hex : String → String)
    (c c' : Component) (fresh fresh' : Nat) (l l' : List ComponentIo)
    (h : Flo.newComponentIosFromComponent camelCase sha1hex c fresh = Except.ok l)
    (h' : Flo.newComponentIosFromComponent camelCase sha1hex c' fresh' = Except.ok l')
    (hn : c'.name = c.name) (hpq : c'.pkgPath = c.pkgPath) (hv : c'.value = c.value) :
    l = Flo.inIosSpec c.id c.value.ins fresh ++
        Flo.outIosSpec camelCase sha1hex c.pkgPath c.name c.id c.value.outs 0
          (fresh + c.value.ins.length) ∧
    l'.map ComponentIo.name = l.map ComponentIo.name := by
  have decomp : ∀ (d : Component) (fr : Nat) (ld : List ComponentIo),
      Flo.newComponentIosFromComponent camelCase sha1hex d fr = Except.ok ld →
      (d.id == 0) = false ∧
      ld = Flo.inIosSpec d.id d.value.ins fr ++
        Flo.outIosSpec camelCase sha1hex d.pkgPath d.name d.id d.value.outs 0
          (fr + d.value.ins.length) := by
    intro d fr ld hd
    unfold Flo.newComponentIosFromComponent at hd
    by_cases h0 : (d.id == 0) = true
    · rw [if_pos h0] at hd; cases hd
    · have h0f : (d.id == 0) = false := by simpa using h0
      rw [if_neg (by simp [h0f])] at hd
      by_cases hf : (!d.value.isFunc) = true
      · rw [if_pos hf] at hd; cases hd
      · rw [if_neg hf] at hd
        cases hins : Flo.mkInIos camelCase d.id d.value.ins fr with
        | error e => rw [hins] at hd; cases hd
        | ok insL =>
          rw [hins] at hd
          cases houts : Flo.mkOutIos camelCase sha1hex d.pkgPath d.name d.id
              d.value.outs 0 (fr + d.value.ins.length) with
          | error e => rw [houts] at hd; cases hd
          | ok outsL =>
            rw [houts] at hd
            cases hd
            exact ⟨h0f, by
              rw [mkInIos_ok camelCase d.id h0f _ _ _ hins,
                mkOutIos_ok camelCase sha1hex d.pkgPath d.name d.id h0f _ _ _ _ houts]⟩
  obtain ⟨h0, hl⟩ := decomp c fresh l h
  obtain ⟨h0', hl'⟩ := decomp c' fresh' l' h'
  refine ⟨hl, ?_⟩
  rw [hl, hl', hn, hpq, hv]
  simp only [List.map_append]
  rw [inIosSpec_names, inIosSpec_names,
    outIosSpec_names camelCase sha1hex c.pkgPath c.name c.value.outs 0 c'.id
      (fresh' + c.value.ins.length) c.id (fresh + c.value.ins.length)]

/-- C10: witness.  Port derivation for the concrete component `compW10a`
(one int parameter, one error return) with identity coercion and digest
functions, and the name agreement with its twin `compW10b`. -/
theorem newComponentIos_shape_witness :
    Flo.newComponentIosFromComponent (fun s => s) (fun s => s) compW10a 10 =
      Except.ok lW10a ∧
    Flo.newComponentIosFromComponent (fun s => s) (fun s => s) compW10b 20 =
      Except.ok lW10b ∧
    (lW10a = Flo.inIosSpec compW10a.id compW10a.value.ins 10 ++
        Flo.outIosSpec (fun s => s) (fun s => s) compW10a.pkgPath compW10a.name
          compW10a.id compW10a.value.outs 0 (10 + compW10a.value.ins.length) ∧
      lW10b.map ComponentIo.name = lW10a.map ComponentIo.name) :=
  ⟨rfl, rfl,
    newComponentIos_shape (fun s => s) (fun s => s) compW10a compW10b 10 20 lW10a lW10b
      rfl rfl rfl rfl rfl⟩

/-- C9 (amended): `Render`'s output is determined by the graph state and the
orphan-pass iteration order; Go leaves that order unspecified, so two
invocations may differ when two or more orphans remain, but whenever the
boundary pass has already rendered every component of the iterated lists,
the output is identical for any two iteration orders. -/
theorem render_deterministic_no_orphans (f : Flo) (p1 p2 : List Component)
    (fuel : Nat) (st : List Flo.Stmt)
    (hb : Flo.boundaryIns f fuel (Flo.insOf f.ios) [] = Except.ok st)
    (h1 : ∀ c ∈ p1, Flo.renderedIn st c.id = true)
    (h2 : ∀ c ∈ p2, Flo.renderedIn st c.id = true) :
    Flo.renderFlo f p1 fuel = Flo.renderFlo f p2 fuel := by
  have skip : ∀ (l : List Component), (∀ c ∈ l, Flo.renderedIn st c.id = true) →
      Flo.orphanPass f fuel l st = Except.ok st := by
    intro l
    induction l with
    | nil => intro _; rfl
    | cons c rest ih =>
      intro hall
      have hc := hall c (List.mem_cons_self _ _)
      simp only [Flo.orphanPass, hc, if_true]
      exact ih (fun d hd => hall d (List.mem_cons_of_mem _ hd))
  simp only [Flo.renderFlo, hb, skip p1 h1, skip p2 h2]

/-- C9: witness.  For the orphan-free `floR`, rendering with the two
possible component-map iteration orders yields identical output. -/
theorem render_deterministic_no_orphans_witness :
    Flo.boundaryIns floR 5 (Flo.insOf floR.ios) [] = Except.ok stR ∧
    Flo.renderFlo floR [compR2, compR3] 5 = Flo.renderFlo floR [compR3, compR2] 5 :=
  ⟨rfl, render_deterministic_no_orphans floR [compR2, compR3] [compR3, compR2] 5 stR
    rfl (by decide) (by decide)⟩

/-- Helper: inner map assignment behaves like a Go map write. -/
theorem lookupInner_setInner (m : List (String × FuncVal)) (k : String)
    (v : FuncVal) (k' : String) :
    Flo.lookupInner (Flo.setInner m k v) k' =
      if k == k' then some v else Flo.lookupInner m k' := by
  induction m with
  | nil =>
    by_cases h2 : k == k' <;>
      simp [Flo.setInner, Flo.lookupInner, List.find?_cons, h2]
  | cons p rest ih =>
    obtain ⟨k1, v1⟩ := p
    by_cases h1 : k1 == k <;> by_cases h2 : k == k' <;> by_cases h3 : k1 == k' <;>
      simp_all [Flo.setInner, Flo.lookupInner, List.find?_cons]

/-- Helper: outer map assignment behaves like a Go map write, creating the
inner map from empty when the qualifier is new. -/
theorem lookupOuter_setOuter (s : List (String × List (String × FuncVal)))
    (q k : String) (v : FuncVal) (q' : String) :
    Flo.lookupOuter (Flo.setOuter s q k v) q' =
      if q == q' then some (Flo.setInner ((Flo.lookupOuter s q).getD []) k v)
      else Flo.lookupOuter s q' := by
  induction s with
  | nil =>
    by_cases h2 : q == q' <;>
      simp [Flo.setOuter, Flo.lookupOuter, List.find?_cons, h2]
  | cons p rest ih =>
    obtain ⟨q1, m⟩ := p
    by_cases h1 : q1 == q <;> by_cases h2 : q == q' <;> by_cases h3 : q1 == q' <;>
      simp_all [Flo.setOuter, Flo.lookupOuter, List.find?_cons]

/-- Helper: the two-level lookup through a `getD` default. -/
theorem innerAt_eq_getD (s : List (String × List (String × FuncVal))) (q k : String) :
    Flo.innerAt s q k = Flo.lookupInner ((Flo.lookupOuter s q).getD []) k := by
  unfold Flo.innerAt
  cases h : Flo.lookupOuter s q <;> simp [Flo.lookupInner]

/-- Helper: a two-level write hits exactly one (qualifier, name) slot. -/
theorem innerAt_setOuter (s : List (String × List (String × FuncVal)))
    (q1 k1 : String) (v1 : FuncVal) (q k : String) :
    Flo.innerAt (Flo.setOuter s q1 k1 v1) q k =
      if (q1 == q && k1 == k) = true then some v1 else Flo.innerAt s q k := by
  rw [innerAt_eq_getD, lookupOuter_setOuter]
  by_cases hq : q1 == q
  · rw [if_pos hq]
    simp only [Option.getD_some]
    rw [lookupInner_setInner]
    by_cases hk : k1 == k
    · simp [hq, hk]
    · simp only [hq, hk, Bool.and_false, Bool.and_true]
      rw [beq_iff_eq.mp hq, ← innerAt_eq_getD]
  · rw [if_neg (by simpa using hq)]
    simp [hq, ← innerAt_eq_getD]

/-- Helper: outer keys of the symbol fold are the seed's keys plus the
derived qualifiers of the qualified components folded in. -/
theorem symKeys : ∀ (l : List Component)
    (acc : List (String × List (String × FuncVal))) (q : String),
    (Flo.lookupOuter (List.foldl Flo.symStep acc l) q).isSome = true ↔
      ((Flo.lookupOuter acc q).isSome = true ∨
        ∃ c ∈ l, ¬(c.name = "") ∧ ¬(c.pkgPath = "") ∧
          q = Flo.derivedPath c.pkgPath) := by
  intro l
  induction l with
  | nil => intro acc q; simp
  | cons c rest ih =>
    intro acc q
    simp only [List.foldl_cons]
    rw [ih]
    unfold Flo.symStep
    by_cases h1 : (c.name == "" || c.pkgPath == "") = true
    · rw [if_pos h1]
      have hcases : c.name = "" ∨ c.pkgPath = "" := by simpa using h1
      constructor
      · rintro (h | h)
        · exact Or.inl h
        · exact Or.inr (by
            obtain ⟨d, hd, h⟩ := h
            exact ⟨d, List.mem_cons_of_mem _ hd, h⟩)
      · rintro (h | ⟨d, hd, hdn, hdp, hdq⟩)
        · exact Or.inl h
        · rcases List.mem_cons.mp hd with h | h
          · subst h
            rcases hcases with h | h
            · exact absurd h hdn
            · exact absurd h hdp
          · exact Or.inr ⟨d, h, hdn, hdp, hdq⟩
    · rw [if_neg h1]
      have hq : ¬(c.name = "") ∧ ¬(c.pkgPath = "") := by
        constructor <;> intro hh <;> simp [hh] at h1
      rw [lookupOuter_setOuter]
      by_cases h2 : Flo.derivedPath c.pkgPath == q
      · have h2' : q = Flo.derivedPath c.pkgPath := by
          have := (beq_iff_eq).mp h2; exact this.symm
        simp only [h2, if_true, Option.isSome_some]
        constructor
        · intro _
          exact Or.inr ⟨c, List.mem_cons_self _ _, hq.1, hq.2, h2'⟩
        · intro _
          exact Or.inl trivial
      · rw [if_neg (by simpa using h2)]
        constructor
        · rintro (h | h)
          · exact Or.inl h
          · obtain ⟨d, hd, h⟩ := h
            exact Or.inr ⟨d, List.mem_cons_of_mem _ hd, h⟩
        · rintro (h | ⟨d, hd, hdn, hdp, hdq⟩)
          · exact Or.inl h
          · rcases List.mem_cons.mp hd with h | h
            · subst h
              exact absurd (by simp [hdq]) h2
            · exact Or.inr ⟨d, h, hdn, hdp, hdq⟩

/-- Helper: every entry of the symbol fold comes from the seed or from one
of the folded, qualified components. -/
theorem symEntries (P : String → String → FuncVal → Prop) :
    ∀ (l : List Component) (acc : List (String × List (String × FuncVal))),
      (∀ q k w, Flo.innerAt acc q k = some w → P q k w) →
      (∀ c ∈ l, ¬(c.name = "") → ¬(c.pkgPath = "") →
        P (Flo.derivedPath c.pkgPath) c.name c.value) →
      ∀ q k w, Flo.innerAt (List.foldl Flo.symStep acc l) q k = some w → P q k w := by
  intro l
  induction l with
  | nil => intro acc hacc _ q k w h; exact hacc q k w h
  | cons c rest ih =>
    intro acc hacc hl q k w h
    simp only [List.foldl_cons] at h
    refine ih (Flo.symStep acc c) ?_
      (fun d hd => hl d (List.mem_cons_of_mem _ hd)) q k w h
    intro q' k' w' h'
    unfold Flo.symStep at h'
    by_cases h1 : (c.name == "" || c.pkgPath == "") = true
    · rw [if_pos h1] at h'
      exact hacc _ _ _ h'
    · rw [if_neg h1] at h'
      have hq : ¬(c.name = "") ∧ ¬(c.pkgPath = "") := by
        constructor <;> intro hh <;> simp [hh] at h1
      rw [innerAt_setOuter] at h'
      by_cases h2 : (Flo.derivedPath c.pkgPath == q' && c.name == k') = true
      · rw [if_pos h2] at h'
        cases h'
        obtain ⟨hqe', hke'⟩ : Flo.derivedPath c.pkgPath = q' ∧ c.name = k' := by
          simpa using h2
        subst hqe'; subst hke'
        exact hl c (List.mem_cons_self _ _) hq.1 hq.2
      · rw [if_neg h2] at h'
        exact hacc _ _ _ h'

/-- Helper: present symbol entries survive further folding. -/
theorem symPresent : ∀ (l : List Component)
    (acc : List (String × List (String × FuncVal))) (q k : String),
    (Flo.innerAt acc q k).isSome = true →
    (Flo.innerAt (List.foldl Flo.symStep acc l) q k).isSome = true := by
  intro l
  induction l with
  | nil => intro acc q k h; exact h
  | cons c rest ih =>
    intro acc q k h
    simp only [List.foldl_cons]
    refine ih (Flo.symStep acc c) q k ?_
    unfold Flo.symStep
    by_cases h1 : (c.name == "" || c.pkgPath == "") = true
    · rw [if_pos h1]; exact h
    · rw [if_neg h1]
      rw [innerAt_setOuter]
      by_cases h2 : (Flo.derivedPath c.pkgPath == q && c.name == k) = true
      · rw [if_pos h2]; rfl
      · rw [if_neg h2]; exact h

/-- Helper: folding a qualified component in creates its symbol entry. -/
theorem symInserted : ∀ (l : List Component)
    (acc : List (String × List (String × FuncVal))) (c : Component),
    c ∈ l → ¬(c.name = "") → ¬(c.pkgPath = "") →
    (Flo.innerAt (List.foldl Flo.symStep acc l)
      (Flo.derivedPath c.pkgPath) c.name).isSome = true := by
  intro l
  induction l with
  | nil => intro acc c hc; cases hc
  | cons d rest ih =>
    intro acc c hc hn hp
    rcases List.mem_cons.mp hc with h | h
    · subst h
      simp only [List.foldl_cons]
      refine symPresent rest (Flo.symStep acc c) _ _ ?_
      unfold Flo.symStep
      rw [if_neg (by simp [hn, hp])]
      rw [innerAt_setOuter]
      rw [if_pos (by simp)]
      rfl
    · simp only [List.foldl_cons]
      exact ih (Flo.symStep acc d) c h hn hp

/-- C8 (amended): `Symbols` keys the outer mapping by each qualified
component's path qualifier with its last segment appended (not by the bare
qualifier), and under that derived key maps the component's name to the
callable of a registered component with that derived key and name (the last
such one when several collide); components with an empty name or qualifier
contribute nothing. -/
theorem symbols_characterization (f : Flo) :
    (∀ q, (Flo.lookupOuter (Flo.symbols f) q).isSome = true ↔
      ∃ c ∈ f.components, ¬(c.name = "") ∧ ¬(c.pkgPath = "") ∧
        q = Flo.derivedPath c.pkgPath) ∧
    (∀ c ∈ f.components, ¬(c.name = "") → ¬(c.pkgPath = "") →
      ∃ w, Flo.innerAt (Flo.symbols f) (Flo.derivedPath c.pkgPath) c.name = some w ∧
        ∃ d ∈ f.components, ¬(d.name = "") ∧ ¬(d.pkgPath = "") ∧
          Flo.derivedPath d.pkgPath = Flo.derivedPath c.pkgPath ∧ d.name = c.name ∧
          w = d.value) := by
  have hsym : Flo.symbols f = List.foldl Flo.symStep [] f.components := rfl
  constructor
  · intro q
    rw [hsym, symKeys]
    have hempty : (Flo.lookupOuter [] q).isSome = false := rfl
    simp [hempty]
  · intro c hc hn hp
    have hpres := symInserted f.components [] c hc hn hp
    rw [← hsym] at hpres
    obtain ⟨w, hw⟩ := Option.isSome_iff_exists.mp hpres
    refine ⟨w, hw, ?_⟩
    have hprov := symEntries
      (fun q k u => ∃ d ∈ f.components, ¬(d.name = "") ∧ ¬(d.pkgPath = "") ∧
        Flo.derivedPath d.pkgPath = q ∧ d.name = k ∧ u = d.value)
      f.components []
      (fun q k u h => by cases h)
      (fun d hd hdn hdp => ⟨d, hd, hdn, hdp, rfl, rfl, rfl⟩)
      (Flo.derivedPath c.pkgPath) c.name w (by rw [← hsym]; exact hw)
    exact hprov

/-- Helper: the rendered-set check sees exactly the ids of the emitted
statements. -/
theorem renderedIn_iff (st : List Flo.Stmt) (cid : Nat) :
    Flo.renderedIn st cid = true ↔ cid ∈ Flo.stmtIds st := by
  simp [Flo.renderedIn, Flo.stmtIds, List.any_eq_true, List.mem_map]

/-- Helper: membership in the renderer's dependency-edge list. -/
theorem mem_edges (f : Flo) (a b : Nat) :
    (a, b) ∈ Flo.edges f ↔ ∃ c ∈ f.components, c.id = b ∧ ∃ x ∈ Flo.insOf c.ios,
      ∃ k ∈ x.connections, k.outComponentId = a ∧ ¬(a = f.id) := by
  unfold Flo.edges
  simp only [List.mem_flatMap]
  constructor
  · rintro ⟨c, hc, x, hx, hmem⟩
    rw [List.mem_filterMap] at hmem
    obtain ⟨k, hk, hg⟩ := hmem
    by_cases hid : (k.outComponentId == f.id) = true
    · rw [if_pos hid] at hg; cases hg
    · rw [if_neg hid] at hg
      simp only [Option.some.injEq, Prod.mk.injEq] at hg
      obtain ⟨ha, hb⟩ := hg
      refine ⟨c, hc, hb, x, hx, k, hk, ha, ?_⟩
      rw [← ha]
      simpa using hid
  · rintro ⟨c, hc, hb, x, hx, k, hk, ha, hne⟩
    refine ⟨c, hc, x, hx, ?_⟩
    rw [List.mem_filterMap]
    refine ⟨k, hk, ?_⟩
    rw [if_neg (by simp [ha]; exact hne), ha, hb]

/-- Helper: with distinct component ids, a component is determined by its
id. -/
theorem comp_unique (f : Flo) (hnodup : (Flo.compIds f).Nodup) {c d : Component}
    (hc : c ∈ f.components) (hd : d ∈ f.components) (hid : c.id = d.id) : c = d :=
  List.inj_on_of_nodup_map hnodup hc hd hid

/-- Helper: what a successful component-map lookup guarantees. -/
theorem lookupComp_some {f : Flo} {cid : Nat} {c : Component}
    (h : Flo.lookupComp f cid = some c) : c ∈ f.components ∧ c.id = cid := by
  unfold Flo.lookupComp at h
  refine ⟨List.mem_of_find?_eq_some h, ?_⟩
  have := List.find?_some h
  simpa using this

/-- Helper: a successful traversal step at some fuel succeeds identically at
any larger fuel. -/
theorem renderStep_mono (f : Flo) :
    ∀ fuel fuel' t st r, fuel ≤ fuel' →
      Flo.renderStep f fuel t st = Except.ok r →
      Flo.renderStep f fuel' t st = Except.ok r := by
  intro fuel
  induction fuel with
  | zero =>
    intro fuel' t st r _ h
    simp [Flo.renderStep] at h
  | succ n ih =>
    intro fuel' t st r hle h
    cases fuel' with
    | zero => omega
    | succ m =>
      have hnm : n ≤ m := by omega
      cases t with
      | comp c =>
        simp only [Flo.renderStep] at h ⊢
        by_cases hr : Flo.renderedIn st c.id = true
        · simpa [hr] using h
        · simp only [hr, Bool.false_eq_true, if_false] at h ⊢
          cases hin : Flo.renderStep f n (Flo.RenderTask.portList (Flo.insOf c.ios)) st with
          | error e => rw [hin] at h; cases h
          | ok st1 =>
            rw [hin] at h
            rw [ih m _ _ _ hnm hin]
            exact h
      | portList l =>
        cases l with
        | nil => simpa [Flo.renderStep] using h
        | cons x rest =>
          simp only [Flo.renderStep] at h ⊢
          cases hin : Flo.renderStep f n (Flo.RenderTask.connList x.connections) st with
          | error e => rw [hin] at h; cases h
          | ok st1 =>
            rw [hin] at h
            rw [ih m _ _ _ hnm hin]
            exact ih m _ _ _ hnm h
      | connList l =>
        cases l with
        | nil => simpa [Flo.renderStep] using h
        | cons k rest =>
          simp only [Flo.renderStep] at h ⊢
          by_cases h1 : (f.id == k.outComponentId) = true
          · simp only [h1, if_true] at h ⊢
            exact ih m _ _ _ hnm h
          · simp only [h1, Bool.false_eq_true, if_false] at h ⊢
            by_cases h2 : Flo.renderedIn st k.outComponentId = true
            · simp only [h2, if_true] at h ⊢
              exact ih m _ _ _ hnm h
            · simp only [h2, Bool.false_eq_true, if_false] at h ⊢
              cases hl : Flo.lookupComp f k.outComponentId with
              | none =>
                rw [hl] at h
                exact absurd h (by simp)
              | some outC =>
                rw [hl] at h
                have h1 : (match Flo.renderStep f n (Flo.RenderTask.comp outC) st with
                    | Except.error e => Except.error e
                    | Except.ok st1 =>
                      Flo.renderStep f n (Flo.RenderTask.connList rest) st1) =
                    Except.ok r := h
                show (match Flo.renderStep f m (Flo.RenderTask.comp outC) st with
                    | Except.error e => Except.error e
                    | Except.ok st1 =>
                      Flo.renderStep f m (Flo.RenderTask.connList rest) st1) =
                  Except.ok r
                cases hin : Flo.renderStep f n (Flo.RenderTask.comp outC) st with
                | error e => rw [hin] at h1; cases h1
                | ok st1 =>
                  rw [hin] at h1
                  rw [ih m _ _ _ hnm hin]
                  exact ih m _ _ _ hnm h1

/-- Helper: the connection loop of one IN port renders every non-boundary,
not-yet-rendered producer, only appends registered statements of strictly
smaller rank than the consumer, preserves the invariant, and ends with every
non-boundary producer of the processed connections emitted. -/
theorem connList_ok (f : Flo) (rk : Nat → Nat)
    (hnodup : (Flo.compIds f).Nodup)
    (hwf2 : ∀ c ∈ f.components, ∀ x ∈ Flo.insOf c.ios, ∀ k ∈ x.connections,
      k.outComponentId ≠ f.id → (Flo.lookupComp f k.outComponentId).isSome = true)
    (hrk : ∀ p ∈ Flo.edges f, rk p.1 < rk p.2)
    (c : Component) (hc : c ∈ f.components)
    (IHc : ∀ c' ∈ f.components, rk c'.id < rk c.id → Flo.CompOk f rk c') :
    ∀ l, (∀ k ∈ l, ∃ x ∈ Flo.insOf c.ios, k ∈ x.connections) →
    ∀ st, Flo.RenderInv f st → ∃ fuel st' new,
      Flo.renderStep f fuel (Flo.RenderTask.connList l) st = Except.ok st' ∧
      st' = st ++ new ∧
      (∀ i ∈ Flo.stmtIds new, i ∈ Flo.compIds f ∧ rk i < rk c.id) ∧
      Flo.RenderInv f st' ∧
      (∀ k ∈ l, ¬(k.outComponentId = f.id) → k.outComponentId ∈ Flo.stmtIds st') := by
  intro l
  induction l with
  | nil =>
    intro _ st hinv
    exact ⟨1, st, [], rfl, by simp, by simp [Flo.stmtIds], hinv, by simp⟩
  | cons k rest ih =>
    intro hmem st hinv
    obtain ⟨x, hx, hkx⟩ := hmem k (List.mem_cons_self _ _)
    have hrest : ∀ k' ∈ rest, ∃ x ∈ Flo.insOf c.ios, k' ∈ x.connections :=
      fun k' hk' => hmem k' (List.mem_cons_of_mem _ hk')
    by_cases hflo : (f.id == k.outComponentId) = true
    · obtain ⟨fuel1, st', new, hstep, hext, hbound, hinv', hprod⟩ := ih hrest st hinv
      refine ⟨fuel1 + 1, st', new, ?_, hext, hbound, hinv', ?_⟩
      · simp only [Flo.renderStep, hflo, if_true]
        exact hstep
      · intro k' hk' hne
        rcases List.mem_cons.mp hk' with h | h
        · subst h
          exact absurd (beq_iff_eq.mp hflo).symm hne
        · exact hprod k' h hne
    · by_cases hrend : Flo.renderedIn st k.outComponentId = true
      · obtain ⟨fuel1, st', new, hstep, hext, hbound, hinv', hprod⟩ := ih hrest st hinv
        refine ⟨fuel1 + 1, st', new, ?_, hext, hbound, hinv', ?_⟩
        · simp only [Flo.renderStep, hflo, Bool.false_eq_true, if_false, hrend, if_true]
          exact hstep
        · intro k' hk' hne
          rcases List.mem_cons.mp hk' with h | h
          · rw [h]
            have hmem' : k.outComponentId ∈ Flo.stmtIds st := (renderedIn_iff st _).mp hrend
            rw [hext]
            rw [show Flo.stmtIds (st ++ new) = Flo.stmtIds st ++ Flo.stmtIds new by
              simp [Flo.stmtIds]]
            exact List.mem_append_left _ hmem'
          · exact hprod k' h hne
      · have hne : ¬(k.outComponentId = f.id) := by
          intro hh
          exact hflo (by simp [hh])
        have hlook := hwf2 c hc x hx k hkx hne
        obtain ⟨outC, hout⟩ := Option.isSome_iff_exists.mp hlook
        obtain ⟨houtMem, houtId⟩ := lookupComp_some hout
        have hedge : (k.outComponentId, c.id) ∈ Flo.edges f :=
          (mem_edges f _ _).mpr ⟨c, hc, rfl, x, hx, k, hkx, rfl, hne⟩
        have hrank : rk outC.id < rk c.id := by
          have := hrk _ hedge
          rw [houtId]
          exact this
        obtain ⟨fuel1, st1, new1, hstep1, hext1, hbound1, hmemC, hinv1⟩ :=
          IHc outC houtMem hrank st hinv
        obtain ⟨fuel2, st2, new2, hstep2, hext2, hbound2, hinv2, hprod2⟩ :=
          ih hrest st1 hinv1
        have hstep1' := renderStep_mono f fuel1 (max fuel1 fuel2) _ _ _
          (Nat.le_max_left _ _) hstep1
        have hstep2' := renderStep_mono f fuel2 (max fuel1 fuel2) _ _ _
          (Nat.le_max_right _ _) hstep2
        refine ⟨max fuel1 fuel2 + 1, st2, new1 ++ new2, ?_, ?_, ?_, hinv2, ?_⟩
        · simp only [Flo.renderStep, hflo, Bool.false_eq_true, if_false, hrend]
          rw [hout]
          show (match Flo.renderStep f (max fuel1 fuel2) (Flo.RenderTask.comp outC) st with
              | Except.error e => Except.error e
              | Except.ok st1' =>
                Flo.renderStep f (max fuel1 fuel2) (Flo.RenderTask.connList rest) st1') =
            Except.ok st2
          rw [hstep1']
          exact hstep2'
        · rw [hext2, hext1, List.append_assoc]
        · intro i hi
          rw [show Flo.stmtIds (new1 ++ new2) = Flo.stmtIds new1 ++ Flo.stmtIds new2 by
            simp [Flo.stmtIds]] at hi
          rcases List.mem_append.mp hi with h | h
          · exact ⟨(hbound1 i h).1, lt_of_le_of_lt (hbound1 i h).2 hrank⟩
          · exact hbound2 i h
        · intro k' hk' hne'
          rcases List.mem_cons.mp hk' with h | h
          · rw [h]
            have hm : k.outComponentId ∈ Flo.stmtIds st1 := by
              rw [← houtId]
              exact hmemC
            rw [hext2]
            rw [show Flo.stmtIds (st1 ++ new2) = Flo.stmtIds st1 ++ Flo.stmtIds new2 by
              simp [Flo.stmtIds]]
            exact List.mem_append_left _ hm
          · exact hprod2 k' h hne'

/-- Helper: the IN-port loop of a component, same contract as the connection
loop, with the producers of every processed port's connections emitted. -/
theorem portList_ok (f : Flo) (rk : Nat → Nat)
    (hnodup : (Flo.compIds f).Nodup)
    (hwf2 : ∀ c ∈ f.components, ∀ x ∈ Flo.insOf c.ios, ∀ k ∈ x.connections,
      k.outComponentId ≠ f.id → (Flo.lookupComp f k.outComponentId).isSome = true)
    (hrk : ∀ p ∈ Flo.edges f, rk p.1 < rk p.2)
    (c : Component) (hc : c ∈ f.components)
    (IHc : ∀ c' ∈ f.components, rk c'.id < rk c.id → Flo.CompOk f rk c') :
    ∀ l, (∀ x ∈ l, x ∈ Flo.insOf c.ios) →
    ∀ st, Flo.RenderInv f st → ∃ fuel st' new,
      Flo.renderStep f fuel (Flo.RenderTask.portList l) st = Except.ok st' ∧
      st' = st ++ new ∧
      (∀ i ∈ Flo.stmtIds new, i ∈ Flo.compIds f ∧ rk i < rk c.id) ∧
      Flo.RenderInv f st' ∧
      (∀ x ∈ l, ∀ k ∈ x.connections, ¬(k.outComponentId = f.id) →
        k.outComponentId ∈ Flo.stmtIds st') := by
  intro l
  induction l with
  | nil =>
    intro _ st hinv
    exact ⟨1, st, [], rfl, by simp, by simp [Flo.stmtIds], hinv, by simp⟩
  | cons x rest ih =>
    intro hl st hinv
    have hx := hl x (List.mem_cons_self _ _)
    obtain ⟨fuel1, st1, new1, hstep1, hext1, hbound1, hinv1, hprod1⟩ :=
      connList_ok f rk hnodup hwf2 hrk c hc IHc x.connections
        (fun k hk => ⟨x, hx, hk⟩) st hinv
    obtain ⟨fuel2, st2, new2, hstep2, hext2, hbound2, hinv2, hprod2⟩ :=
      ih (fun y hy => hl y (List.mem_cons_of_mem _ hy)) st1 hinv1
    have hstep1' := renderStep_mono f fuel1 (max fuel1 fuel2) _ _ _
      (Nat.le_max_left _ _) hstep1
    have hstep2' := renderStep_mono f fuel2 (max fuel1 fuel2) _ _ _
      (Nat.le_max_right _ _) hstep2
    refine ⟨max fuel1 fuel2 + 1, st2, new1 ++ new2, ?_, ?_, ?_, hinv2, ?_⟩
    · show (match Flo.renderStep f (max fuel1 fuel2)
            (Flo.RenderTask.connList x.connections) st with
          | Except.error e => Except.error e
          | Except.ok st1' =>
            Flo.renderStep f (max fuel1 fuel2) (Flo.RenderTask.portList rest) st1') =
        Except.ok st2
      rw [hstep1']
      exact hstep2'
    · rw [hext2, hext1, List.append_assoc]
    · intro i hi
      rw [show Flo.stmtIds (new1 ++ new2) = Flo.stmtIds new1 ++ Flo.stmtIds new2 by
        simp [Flo.stmtIds]] at hi
      rcases List.mem_append.mp hi with h | h
      · exact hbound1 i h
      · exact hbound2 i h
    · intro y hy k hk hne
      rcases List.mem_cons.mp hy with h | h
      · rw [h] at hk
        have hm := hprod1 k hk hne
        rw [hext2]
        rw [show Flo.stmtIds (st1 ++ new2) = Flo.stmtIds st1 ++ Flo.stmtIds new2 by
          simp [Flo.stmtIds]]
        exact List.mem_append_left _ hm
      · exact hprod2 y h k hk hne

/-- Helper: rendering one registered component succeeds (with enough fuel)
when all strictly lower-ranked components do: the dependency-first step of
the induction behind termination. -/
theorem comp_ok_step (f : Flo) (rk : Nat → Nat)
    (hnodup : (Flo.compIds f).Nodup)
    (hwf2 : ∀ c ∈ f.components, ∀ x ∈ Flo.insOf c.ios, ∀ k ∈ x.connections,
      k.outComponentId ≠ f.id → (Flo.lookupComp f k.outComponentId).isSome = true)
    (hrk : ∀ p ∈ Flo.edges f, rk p.1 < rk p.2)
    (c : Component) (hc : c ∈ f.components)
    (IHc : ∀ c' ∈ f.components, rk c'.id < rk c.id → Flo.CompOk f rk c') :
    Flo.CompOk f rk c := by
  intro st hinv
  by_cases hrend : Flo.renderedIn st c.id = true
  · refine ⟨1, st, [], ?_, by simp, by simp [Flo.stmtIds],
      (renderedIn_iff st _).mp hrend, hinv⟩
    simp only [Flo.renderStep, hrend, if_true]
  · obtain ⟨fuel1, st1, new1, hstep1, hext1, hbound1, hinv1, hprod1⟩ :=
      portList_ok f rk hnodup hwf2 hrk c hc IHc (Flo.insOf c.ios)
        (fun x hx => hx) st hinv
    have hcid : (Flo.mkStmt f c).cid = c.id := rfl
    have hids : Flo.stmtIds (st1 ++ [Flo.mkStmt f c]) = Flo.stmtIds st1 ++ [c.id] := by
      simp [Flo.stmtIds, hcid]
    have hnotin : c.id ∉ Flo.stmtIds st1 := by
      rw [hext1]
      rw [show Flo.stmtIds (st ++ new1) = Flo.stmtIds st ++ Flo.stmtIds new1 by
        simp [Flo.stmtIds]]
      intro hmem
      rcases List.mem_append.mp hmem with h | h
      · exact hrend ((renderedIn_iff st _).mpr h)
      · exact absurd (hbound1 c.id h).2 (lt_irrefl _)
    refine ⟨fuel1 + 1, st1 ++ [Flo.mkStmt f c], new1 ++ [Flo.mkStmt f c], ?_, ?_, ?_, ?_, ?_⟩
    · simp only [Flo.renderStep, hrend, Bool.false_eq_true, if_false]
      rw [hstep1]
    · rw [hext1, List.append_assoc]
    · intro i hi
      rw [show Flo.stmtIds (new1 ++ [Flo.mkStmt f c]) = Flo.stmtIds new1 ++ [c.id] by
        simp [Flo.stmtIds, hcid]] at hi
      rcases List.mem_append.mp hi with h | h
      · exact ⟨(hbound1 i h).1, le_of_lt (hbound1 i h).2⟩
      · have : i = c.id := by simpa using h
        subst this
        exact ⟨List.mem_map_of_mem _ hc, le_refl _⟩
    · rw [hids]
      exact List.mem_append_right _ (by simp)
    · refine ⟨?_, ?_, ?_⟩
      · rw [hids]
        exact hinv1.nodup.append (List.nodup_singleton _)
          (fun a ha hb => by
            have : a = c.id := by simpa using hb
            subst this
            exact hnotin ha)
      · intro i hi
        rw [hids] at hi
        rcases List.mem_append.mp hi with h | h
        · exact hinv1.sub i h
        · have : i = c.id := by simpa using h
          subst this
          exact List.mem_map_of_mem _ hc
      · intro l1 s l2 heq a hedge
        have hfinal : l1 = st1 → s = Flo.mkStmt f c → a ∈ Flo.stmtIds l1 := by
          intro hl1 hs
          subst hs
          obtain ⟨d, hd, hdid, x, hx, k, hk, hka, hne⟩ :=
            (mem_edges f a (Flo.mkStmt f c).cid).mp hedge
          rw [hcid] at hdid
          have hdc : d = c := comp_unique f hnodup hd hc hdid
          subst hdc
          rw [hl1, ← hka]
          exact hprod1 x hx k hk (by rw [hka]; exact hne)
        rcases List.append_eq_append_iff.mp heq with ⟨t, ht1, ht2⟩ | ⟨t, ht1, ht2⟩
        · -- l1 = st1 ++ t and [mk] = t ++ s :: l2: s is the final statement
          cases t with
          | nil =>
            simp only [List.nil_append] at ht2
            refine hfinal (by simp [ht1]) (List.cons.inj ht2).1.symm
          | cons b bs =>
            exact absurd ((List.cons.inj ht2).2).symm (by simp)
        · -- st1 = l1 ++ t and s :: l2 = t ++ [mk]
          cases t with
          | nil =>
            simp only [List.nil_append] at ht2
            refine hfinal ?_ (List.cons.inj ht2).1
            simp at ht1
            exact ht1.symm
          | cons b bs =>
            have hb : s = b := (List.cons.inj ht2).1
            have hst1 : st1 = l1 ++ s :: bs := by
              rw [ht1, ← hb]
            exact hinv1.closed l1 s bs hst1 a hedge

/-- Helper: with distinct ids, well-formed producers and a rank strictly
increasing along dependency edges, every registered component renders. -/
theorem compOk_all (f : Flo) (rk : Nat → Nat) (hwf : Flo.WFlo f)
    (hrk : ∀ p ∈ Flo.edges f, rk p.1 < rk p.2) :
    ∀ c ∈ f.components, Flo.CompOk f rk c := by
  obtain ⟨hnodup, hwf2, _⟩ := hwf
  have main : ∀ r, ∀ c ∈ f.components, rk c.id < r → Flo.CompOk f rk c := by
    intro r
    induction r with
    | zero => intro c _ h; omega
    | succ n ihn =>
      intro c hc _
      exact comp_ok_step f rk hnodup hwf2 hrk c hc
        (fun c' hc' hlt => ihn c' hc' (by omega))
  exact fun c hc => main (rk c.id + 1) c hc (by omega)

/-- Helper: a successful boundary connection loop is fuel-monotone. -/
theorem boundaryConns_mono (f : Flo) {fuel fuel' : Nat} (hle : fuel ≤ fuel') :
    ∀ l st r, Flo.boundaryConns f fuel l st = Except.ok r →
      Flo.boundaryConns f fuel' l st = Except.ok r := by
  intro l
  induction l with
  | nil => intro st r h; exact h
  | cons k rest ih =>
    intro st r h
    simp only [Flo.boundaryConns] at h ⊢
    cases hl : Flo.lookupComp f k.inComponentId with
    | none => rw [hl] at h; cases h
    | some c =>
      rw [hl] at h
      have h1 : (match Flo.renderStep f fuel (Flo.RenderTask.comp c) st with
          | Except.error e => Except.error e
          | Except.ok st1 => Flo.boundaryConns f fuel rest st1) = Except.ok r := h
      show (match Flo.renderStep f fuel' (Flo.RenderTask.comp c) st with
          | Except.error e => Except.error e
          | Except.ok st1 => Flo.boundaryConns f fuel' rest st1) = Except.ok r
      cases hin : Flo.renderStep f fuel (Flo.RenderTask.comp c) st with
      | error e => rw [hin] at h1; cases h1
      | ok st1 =>
        rw [hin] at h1
        rw [renderStep_mono f fuel fuel' _ _ _ hle hin]
        exact ih st1 r h1

/-- Helper: a successful boundary pass is fuel-monotone. -/
theorem boundaryIns_mono (f : Flo) {fuel fuel' : Nat} (hle : fuel ≤ fuel') :
    ∀ l st r, Flo.boundaryIns f fuel l st = Except.ok r →
      Flo.boundaryIns f fuel' l st = Except.ok r := by
  intro l
  induction l with
  | nil => intro st r h; exact h
  | cons x rest ih =>
    intro st r h
    simp only [Flo.boundaryIns] at h ⊢
    cases hin : Flo.boundaryConns f fuel x.connections st with
    | error e => rw [hin] at h; cases h
    | ok st1 =>
      rw [hin] at h
      rw [boundaryConns_mono f hle _ _ _ hin]
      exact ih st1 r h

/-- Helper: a successful orphan pass is fuel-monotone. -/
theorem orphanPass_mono (f : Flo) {fuel fuel' : Nat} (hle : fuel ≤ fuel') :
    ∀ l st r, Flo.orphanPass f fuel l st = Except.ok r →
      Flo.orphanPass f fuel' l st = Except.ok r := by
  intro l
  induction l with
  | nil => intro st r h; exact h
  | cons c rest ih =>
    intro st r h
    simp only [Flo.orphanPass] at h ⊢
    by_cases hr : Flo.renderedIn st c.id = true
    · simp only [hr, if_true] at h ⊢
      exact ih st r h
    · simp only [hr, Bool.false_eq_true, if_false] at h ⊢
      cases hin : Flo.renderStep f fuel (Flo.RenderTask.comp c) st with
      | error e => rw [hin] at h; cases h
      | ok st1 =>
        rw [hin] at h
        rw [renderStep_mono f fuel fuel' _ _ _ hle hin]
        exact ih st1 r h

/-- Helper: the boundary pass succeeds for some fuel on a well-formed graph
with ranked dependencies, appending only registered statements and
preserving the invariant. -/
theorem boundaryConns_ok (f : Flo) (rk : Nat → Nat)
    (hall : ∀ c ∈ f.components, Flo.CompOk f rk c) :
    ∀ l, (∀ k ∈ l, (Flo.lookupComp f k.inComponentId).isSome = true) →
    ∀ st, Flo.RenderInv f st → ∃ fuel st' new,
      Flo.boundaryConns f fuel l st = Except.ok st' ∧
      st' = st ++ new ∧
      (∀ i ∈ Flo.stmtIds new, i ∈ Flo.compIds f) ∧
      Flo.RenderInv f st' := by
  intro l
  induction l with
  | nil =>
    intro _ st hinv
    exact ⟨0, st, [], rfl, by simp, by simp [Flo.stmtIds], hinv⟩
  | cons k rest ih =>
    intro hl st hinv
    obtain ⟨c, hcl⟩ := Option.isSome_iff_exists.mp (hl k (List.mem_cons_self _ _))
    obtain ⟨hcMem, _⟩ := lookupComp_some hcl
    obtain ⟨fuel1, st1, new1, hstep1, hext1, hbound1, _, hinv1⟩ := hall c hcMem st hinv
    obtain ⟨fuel2, st2, new2, hstep2, hext2, hbound2, hinv2⟩ :=
      ih (fun k' hk' => hl k' (List.mem_cons_of_mem _ hk')) st1 hinv1
    have hstep1' := renderStep_mono f fuel1 (max fuel1 fuel2) _ _ _
      (Nat.le_max_left _ _) hstep1
    have hstep2' := boundaryConns_mono f (Nat.le_max_right fuel1 fuel2) _ _ _ hstep2
    refine ⟨max fuel1 fuel2, st2, new1 ++ new2, ?_, ?_, ?_, hinv2⟩
    · simp only [Flo.boundaryConns]
      rw [hcl]
      show (match Flo.renderStep f (max fuel1 fuel2) (Flo.RenderTask.comp c) st with
          | Except.error e => Except.error e
          | Except.ok st1' => Flo.boundaryConns f (max fuel1 fuel2) rest st1') =
        Except.ok st2
      rw [hstep1']
      exact hstep2'
    · rw [hext2, hext1, List.append_assoc]
    · intro i hi
      rw [show Flo.stmtIds (new1 ++ new2) = Flo.stmtIds new1 ++ Flo.stmtIds new2 by
        simp [Flo.stmtIds]] at hi
      rcases List.mem_append.mp hi with h | h
      · exact (hbound1 i h).1
      · exact hbound2 i h

/-- Helper: the full boundary pass succeeds for some fuel. -/
theorem boundaryIns_ok (f : Flo) (rk : Nat → Nat)
    (hall : ∀ c ∈ f.components, Flo.CompOk f rk c) :
    ∀ l, (∀ x ∈ l, ∀ k ∈ x.connections, (Flo.lookupComp f k.inComponentId).isSome = true) →
    ∀ st, Flo.RenderInv f st → ∃ fuel st' new,
      Flo.boundaryIns f fuel l st = Except.ok st' ∧
      st' = st ++ new ∧
      (∀ i ∈ Flo.stmtIds new, i ∈ Flo.compIds f) ∧
      Flo.RenderInv f st' := by
  intro l
  induction l with
  | nil =>
    intro _ st hinv
    exact ⟨0, st, [], rfl, by simp, by simp [Flo.stmtIds], hinv⟩
  | cons x rest ih =>
    intro hl st hinv
    obtain ⟨fuel1, st1, new1, hstep1, hext1, hbound1, hinv1⟩ :=
      boundaryConns_ok f rk hall x.connections (hl x (List.mem_cons_self _ _)) st hinv
    obtain ⟨fuel2, st2, new2, hstep2, hext2, hbound2, hinv2⟩ :=
      ih (fun y hy => hl y (List.mem_cons_of_mem _ hy)) st1 hinv1
    have hstep1' := boundaryConns_mono f (Nat.le_max_left fuel1 fuel2) _ _ _ hstep1
    have hstep2' := boundaryIns_mono f (Nat.le_max_right fuel1 fuel2) _ _ _ hstep2
    refine ⟨max fuel1 fuel2, st2, new1 ++ new2, ?_, ?_, ?_, hinv2⟩
    · simp only [Flo.boundaryIns]
      rw [hstep1']
      exact hstep2'
    · rw [hext2, hext1, List.append_assoc]
    · intro i hi
      rw [show Flo.stmtIds (new1 ++ new2) = Flo.stmtIds new1 ++ Flo.stmtIds new2 by
        simp [Flo.stmtIds]] at hi
      rcases List.mem_append.mp hi with h | h
      · exact hbound1 i h
      · exact hbound2 i h

/-- Helper: the orphan pass succeeds for some fuel and leaves every iterated
component rendered. -/
theorem orphanPass_ok (f : Flo) (rk : Nat → Nat)
    (hall : ∀ c ∈ f.components, Flo.CompOk f rk c) :
    ∀ l, (∀ c ∈ l, c ∈ f.components) →
    ∀ st, Flo.RenderInv f st → ∃ fuel st' new,
      Flo.orphanPass f fuel l st = Except.ok st' ∧
      st' = st ++ new ∧
      (∀ i ∈ Flo.stmtIds new, i ∈ Flo.compIds f) ∧
      Flo.RenderInv f st' ∧
      (∀ c ∈ l, c.id ∈ Flo.stmtIds st') := by
  intro l
  induction l with
  | nil =>
    intro _ st hinv
    exact ⟨0, st, [], rfl, by simp, by simp [Flo.stmtIds], hinv, by simp⟩
  | cons c rest ih =>
    intro hl st hinv
    by_cases hr : Flo.renderedIn st c.id = true
    · obtain ⟨fuel1, st', new, hstep, hext, hbound, hinv', hcov⟩ :=
        ih (fun d hd => hl d (List.mem_cons_of_mem _ hd)) st hinv
      refine ⟨fuel1, st', new, ?_, hext, hbound, hinv', ?_⟩
      · simp only [Flo.orphanPass, hr, if_true]
        exact hstep
      · intro d hd
        rcases List.mem_cons.mp hd with h | h
        · rw [h, hext]
          rw [show Flo.stmtIds (st ++ new) = Flo.stmtIds st ++ Flo.stmtIds new by
            simp [Flo.stmtIds]]
          exact List.mem_append_left _ ((renderedIn_iff st _).mp hr)
        · exact hcov d h
    · obtain ⟨fuel1, st1, new1, hstep1, hext1, hbound1, hmemC, hinv1⟩ :=
        hall c (hl c (List.mem_cons_self _ _)) st hinv
      obtain ⟨fuel2, st2, new2, hstep2, hext2, hbound2, hinv2, hcov2⟩ :=
        ih (fun d hd => hl d (List.mem_cons_of_mem _ hd)) st1 hinv1
      have hstep1' := renderStep_mono f fuel1 (max fuel1 fuel2) _ _ _
        (Nat.le_max_left _ _) hstep1
      have hstep2' := orphanPass_mono f (Nat.le_max_right fuel1 fuel2) _ _ _ hstep2
      refine ⟨max fuel1 fuel2, st2, new1 ++ new2, ?_, ?_, ?_, hinv2, ?_⟩
      · simp only [Flo.orphanPass, hr, Bool.false_eq_true, if_false]
        show (match Flo.renderStep f (max fuel1 fuel2) (Flo.RenderTask.comp c) st with
            | Except.error e => Except.error e
            | Except.ok st1' => Flo.orphanPass f (max fuel1 fuel2) rest st1') =
          Except.ok st2
        rw [hstep1']
        exact hstep2'
      · rw [hext2, hext1, List.append_assoc]
      · intro i hi
        rw [show Flo.stmtIds (new1 ++ new2) = Flo.stmtIds new1 ++ Flo.stmtIds new2 by
          simp [Flo.stmtIds]] at hi
        rcases List.mem_append.mp hi with h | h
        · exact (hbound1 i h).1
        · exact hbound2 i h
      · intro d hd
        rcases List.mem_cons.mp hd with h | h
        · rw [h, hext2]
          rw [show Flo.stmtIds (st1 ++ new2) = Flo.stmtIds st1 ++ Flo.stmtIds new2 by
            simp [Flo.stmtIds]]
          exact List.mem_append_left _ hmemC
        · exact hcov2 d h

/-- C3 (amended): on a well-formed graph whose dependency edges admit a
strictly increasing rank — i.e. whose connection structure is acyclic,
self-loops included — `Render` terminates (some fuel suffices for the Go
original's unbounded recursion), emits each registered component's call
statement exactly once, emits every non-boundary producer feeding a
component's IN ports before that component, and emits everything the
boundary-IN traversal renders before anything the orphan pass adds. -/
theorem render_acyclic_ok (f : Flo) (perm : List Component) (rk : Nat → Nat)
    (hwf : Flo.WFlo f) (hperm : perm.Perm f.components)
    (hrk : ∀ p ∈ Flo.edges f, rk p.1 < rk p.2) :
    ∃ fuel out bst rest,
      Flo.renderFlo f perm fuel = Except.ok out ∧
      Flo.boundaryIns f fuel (Flo.insOf f.ios) [] = Except.ok bst ∧
      out.body = bst ++ rest ∧
      (Flo.stmtIds out.body).Perm (Flo.compIds f) ∧
      Flo.UpClosed f out.body := by
  have hall := compOk_all f rk hwf hrk
  obtain ⟨hnodup, hwf2, hwf3⟩ := hwf
  have hinv0 : Flo.RenderInv f [] := by
    refine ⟨List.nodup_nil, by simp [Flo.stmtIds], ?_⟩
    intro l1 s l2 heq a he
    exact absurd heq (by simp)
  obtain ⟨fuel1, bst, new1, hb, _, hbsub, hbinv⟩ :=
    boundaryIns_ok f rk hall (Flo.insOf f.ios) hwf3 [] hinv0
  obtain ⟨fuel2, body, new2, ho, hoext, hosub, hoinv, hocov⟩ :=
    orphanPass_ok f rk hall perm (fun c hc => (hperm.mem_iff).mp hc) bst hbinv
  have hb' := boundaryIns_mono f (Nat.le_max_left fuel1 fuel2) _ _ _ hb
  have ho' := orphanPass_mono f (Nat.le_max_right fuel1 fuel2) _ _ _ ho
  have hbodyids : (Flo.stmtIds body).Perm (Flo.compIds f) := by
    refine (List.perm_ext_iff_of_nodup hoinv.nodup hnodup).mpr ?_
    intro a
    constructor
    · exact fun h => hoinv.sub a h
    · intro h
      obtain ⟨c, hcMem, hcid⟩ := List.mem_map.mp h
      rw [← hcid]
      exact hocov c ((hperm.mem_iff).mpr hcMem)
  refine ⟨max fuel1 fuel2,
    { pkgName := f.pkgName, pkgDescription := f.pkgDescription, funcName := f.name,
      params := (Flo.insOf f.ios).map (fun x =>
        (if !x.connections.isEmpty then x.name else ("_"),
          x.rtype.pkgPath, x.rtype.name)),
      retClause := Flo.retClauseOf (Flo.outsOf f.ios),
      body := body,
      finalRet := Flo.finalRetOf (Flo.outsOf f.ios) },
    bst, new2, ?_, hb', hoext, hbodyids, hoinv.closed⟩
  simp only [Flo.renderFlo, hb', ho']

/-- C3: witness.  The orphan-free two-component graph `floR` is well-formed
and has no dependency edges at all, so the constant rank certifies
acyclicity; rendering therefore succeeds with the stated shape. -/
theorem render_acyclic_ok_witness :
    Flo.WFlo floR ∧
    ∃ fuel out bst rest,
      Flo.renderFlo floR floR.components fuel = Except.ok out ∧
      Flo.boundaryIns floR fuel (Flo.insOf floR.ios) [] = Except.ok bst ∧
      out.body = bst ++ rest ∧
      (Flo.stmtIds out.body).Perm (Flo.compIds floR) ∧
      Flo.UpClosed floR out.body :=
  ⟨by decide, render_acyclic_ok floR floR.components (fun _ => 0) (by decide)
    (List.Perm.refl _) (by decide)⟩
